import Mathlib

/-!
Verification of the Tala voice-chatbot gateways (main.py, fc.py, config.py,
wa.py, test.py) against their natural-language specification.

The Python sources are shallowly embedded: Python dicts become association
lists (`List (String × α)`), JSON values become the inductive `JValue`,
stateful handlers become explicit state-passing functions, fallible code
returns `Except`/`Option`, and the standard-library behaviours the code
relies on (`datetime.strptime`, `json.dumps`/`json.loads`, sqlite upsert)
are modelled by executable Lean definitions whose semantics are documented
at each definition site.
-/

namespace Tala

/-! ## Python dict model

Python dicts are modelled as association lists with unique keys (a real
dict can never hold a duplicate key; definitions below also behave
sensibly on duplicate-key lists by acting on the first occurrence, which
is the one `lookupKey` sees).  `lookupKey` is `d.get(k)`, `setk` is
`d[k] = v` (replace in place if present, preserving insertion order, else
append), `dictUpdate` is `d.update(ps)` (assign every entry of `ps`, in
order), `deleteKey` removes a key. -/

/-- `d.get(k)`: first value stored under key `k`, if any. -/
def lookupKey {α : Type} (l : List (String × α)) (k : String) : Option α :=
  match l with
  | [] => none
  | (k', v) :: t => if k = k' then some v else lookupKey t k

/-- `d[k] = v`: overwrite the value at `k` in place if present, else append. -/
def setk {α : Type} (l : List (String × α)) (k : String) (v : α) :
    List (String × α) :=
  match l with
  | [] => [(k, v)]
  | (k', v') :: t => if k' = k then (k, v) :: t else (k', v') :: setk t k v

/-- `d.update(ps)`: assign every entry of `ps` into `d`, in order. -/
def dictUpdate {α : Type} (d ps : List (String × α)) : List (String × α) :=
  ps.foldl (fun acc kv => setk acc kv.1 kv.2) d

/-- `DELETE ... WHERE key = k` / `del d[k]`. -/
def deleteKey {α : Type} (l : List (String × α)) (k : String) :
    List (String × α) :=
  l.filter (fun kv => kv.1 ≠ k)

theorem lookupKey_setk {α : Type} (l : List (String × α)) (k : String) (v : α)
    (k' : String) :
    lookupKey (setk l k v) k' = if k' = k then some v else lookupKey l k' := by
  induction l with
  | nil =>
    by_cases h : k' = k <;> simp [setk, lookupKey, h]
  | cons hd tl ih =>
    obtain ⟨k0, v0⟩ := hd
    by_cases h0 : k0 = k
    · subst h0
      by_cases h : k' = k0 <;> simp [setk, lookupKey, h]
    · by_cases h : k' = k
      · subst h
        simp [setk, lookupKey, h0, Ne.symm h0, ih]
      · by_cases h2 : k' = k0 <;> simp [setk, lookupKey, h0, h, h2, ih]

theorem lookupKey_eq_none_of_not_mem {α : Type} (l : List (String × α))
    (k : String) (h : k ∉ l.map Prod.fst) : lookupKey l k = none := by
  induction l with
  | nil => rfl
  | cons hd tl ih =>
    obtain ⟨k0, v0⟩ := hd
    have hk0 : ¬ k = k0 := by
      intro hc
      exact h (by simp [hc])
    simp only [lookupKey, if_neg hk0]
    exact ih (by
      intro hc
      exact h (by simp at hc ⊢; right; exact hc))

theorem deleteKey_cons {α : Type} (hd : String × α) (tl : List (String × α))
    (k : String) :
    deleteKey (hd :: tl) k =
      if hd.1 = k then deleteKey tl k else hd :: deleteKey tl k := by
  by_cases h : hd.1 = k <;> simp [deleteKey, List.filter_cons, h]

theorem lookupKey_deleteKey {α : Type} (l : List (String × α)) (k : String) :
    lookupKey (deleteKey l k) k = none := by
  induction l with
  | nil => rfl
  | cons hd tl ih =>
    obtain ⟨k0, v0⟩ := hd
    rw [deleteKey_cons]
    by_cases h0 : k0 = k
    · simpa [h0] using ih
    · simp only [h0, if_false, lookupKey]
      rw [if_neg (fun hc => h0 hc.symm)]
      exact ih

theorem lookupKey_deleteKey_ne {α : Type} (l : List (String × α)) (k k' : String)
    (h : k' ≠ k) :
    lookupKey (deleteKey l k) k' = lookupKey l k' := by
  induction l with
  | nil => rfl
  | cons hd tl ih =>
    obtain ⟨k0, v0⟩ := hd
    rw [deleteKey_cons]
    by_cases h0 : k0 = k
    · subst h0
      have hne : ¬ k' = k0 := h
      simp only [if_pos rfl, lookupKey, if_neg hne]
      exact ih
    · simp only [h0, if_false, lookupKey]
      by_cases h2 : k' = k0 <;> simp [h2, ih]

/-- Latest-wins characterisation of `d.update(ps)`: keys named in `ps` take
their `ps` value, all other keys keep their `d` value.  `ps` is assumed to
have pairwise-distinct keys, as every Python dict does. -/
theorem lookupKey_dictUpdate {α : Type} (d ps : List (String × α))
    (hnd : (ps.map Prod.fst).Nodup) (k : String) :
    lookupKey (dictUpdate d ps) k =
      match lookupKey ps k with
      | some v => some v
      | none => lookupKey d k := by
  induction ps generalizing d with
  | nil => simp [dictUpdate, lookupKey]
  | cons hd tl ih =>
    obtain ⟨k0, v0⟩ := hd
    have hnd' : (tl.map Prod.fst).Nodup := (List.nodup_cons.mp hnd).2
    have hk0 : k0 ∉ tl.map Prod.fst := (List.nodup_cons.mp hnd).1
    have hstep : dictUpdate d ((k0, v0) :: tl) = dictUpdate (setk d k0 v0) tl := rfl
    rw [hstep, ih (setk d k0 v0) hnd']
    by_cases h : k = k0
    · subst h
      have htl : lookupKey tl k = none := lookupKey_eq_none_of_not_mem tl k hk0
      simp [lookupKey, htl, lookupKey_setk]
    · simp only [lookupKey, if_neg h]
      cases hc : lookupKey tl k with
      | some v => simp
      | none => simp [lookupKey_setk, h]

/-! ## JSON value model

`JValue` models the JSON-serialisable Python data the system passes around
(tool-call arguments, webhook payloads and replies, WhatsApp histories):
`None`, `bool`, `int`, `str`, `list`, `dict`.  Floats are outside the
model; none of the code under verification produces one. -/

inductive JValue where
  | null : JValue
  | boolV (b : Bool) : JValue
  | num (n : Int) : JValue
  | str (s : String) : JValue
  | arr (elems : List JValue) : JValue
  | obj (fields : List (String × JValue)) : JValue

/-- Python truthiness (`if x:`) on JSON-shaped values: `None`, `False`,
`0`, `""`, `[]` and the empty dict are falsy, everything else truthy. -/
def truthy : JValue → Bool
  | .null => false
  | .boolV b => b
  | .num n => n != 0
  | .str s => s != ""
  | .arr es => !es.isEmpty
  | .obj fs => !fs.isEmpty

/-! ## CPython `json.dumps` (default options: `ensure_ascii=True`,
separators `", "` and `": "`) -/

/-- Lowercase hex digit, as emitted inside `\uXXXX` escapes. -/
def toHexDigit (n : Nat) : Char :=
  if n = 0 then '0' else if n = 1 then '1' else if n = 2 then '2'
  else if n = 3 then '3' else if n = 4 then '4' else if n = 5 then '5'
  else if n = 6 then '6' else if n = 7 then '7' else if n = 8 then '8'
  else if n = 9 then '9' else if n = 10 then 'a' else if n = 11 then 'b'
  else if n = 12 then 'c' else if n = 13 then 'd' else if n = 14 then 'e'
  else 'f'

def toHex4 (n : Nat) : List Char :=
  [toHexDigit (n / 4096 % 16), toHexDigit (n / 256 % 16),
   toHexDigit (n / 16 % 16), toHexDigit (n % 16)]

/-- One character of `json.dumps`'s ASCII string encoder
(`py_encode_basestring_ascii`): short escapes for `"`/`\`/control
characters with names, printable ASCII verbatim, `\uXXXX` otherwise,
with a UTF-16 surrogate pair for characters beyond the BMP. -/
def escapeChar (c : Char) : List Char :=
  if c = '"' then ['\\', '"']
  else if c = '\\' then ['\\', '\\']
  else if c = '\x08' then ['\\', 'b']
  else if c = '\x09' then ['\\', 't']
  else if c = '\x0a' then ['\\', 'n']
  else if c = '\x0c' then ['\\', 'f']
  else if c = '\x0d' then ['\\', 'r']
  else if 0x20 ≤ c.toNat ∧ c.toNat ≤ 0x7e then [c]
  else if c.toNat < 0x10000 then '\\' :: 'u' :: toHex4 c.toNat
  else
    ('\\' :: 'u' :: toHex4 (0xd800 + (c.toNat - 0x10000) / 0x400)) ++
    ('\\' :: 'u' :: toHex4 (0xdc00 + (c.toNat - 0x10000) % 0x400))

def escStr : List Char → List Char
  | [] => []
  | c :: t => escapeChar c ++ escStr t

/-- Decimal digits of a natural number, most significant first (`str(n)`). -/
def natDigits (n : Nat) : List Char :=
  if _h : n < 10 then [toHexDigit n]
  else natDigits (n / 10) ++ [toHexDigit (n % 10)]
  termination_by n
  decreasing_by exact Nat.div_lt_self (by omega) (by omega)

/-- `str(n)` for a Python int. -/
def intRender (n : Int) : List Char :=
  if n < 0 then '-' :: natDigits n.natAbs else natDigits n.toNat

mutual
/-- `json.dumps` with its default separators, as a character list. -/
def renderChars : JValue → List Char
  | .null => ['n', 'u', 'l', 'l']
  | .boolV true => ['t', 'r', 'u', 'e']
  | .boolV false => ['f', 'a', 'l', 's', 'e']
  | .num n => intRender n
  | .str s => '"' :: (escStr s.data ++ ['"'])
  | .arr [] => ['[', ']']
  | .arr (e :: tl) => '[' :: ((renderChars e ++ renderElems tl) ++ [']'])
  | .obj [] => ['\x7b', '\x7d']
  | .obj (f :: tl) => '\x7b' :: ((renderField f ++ renderFields tl) ++ ['\x7d'])

def renderElems : List JValue → List Char
  | [] => []
  | e :: tl => ',' :: ' ' :: (renderChars e ++ renderElems tl)

def renderField : String × JValue → List Char
  | (k, v) => '"' :: (escStr k.data ++ ('"' :: ':' :: ' ' :: renderChars v))

def renderFields : List (String × JValue) → List Char
  | [] => []
  | f :: tl => ',' :: ' ' :: (renderField f ++ renderFields tl)
end

/-- `json.dumps(v)`. -/
def dumps (v : JValue) : String := String.mk (renderChars v)

/-! ## CPython `json.loads`

A recursive-descent parser over character lists, modelling `json.loads`
on the fragment the system exchanges (no floats; a number followed by
`.`/`e`/`E` is rejected rather than parsed as a float, and a string
escape decoding to a lone UTF-16 surrogate is rejected rather than
producing a non-scalar code unit).  Structural recursion is by input
length for strings and by an explicit fuel (bounded below by the input
length) for nested values. -/

def isJsonWs (c : Char) : Bool :=
  c = ' ' || c = '\x09' || c = '\x0a' || c = '\x0d'

def skipWs (cs : List Char) : List Char := cs.dropWhile isJsonWs

def fromHexDigit (c : Char) : Option Nat :=
  if 48 ≤ c.toNat ∧ c.toNat ≤ 57 then some (c.toNat - 48)
  else if 97 ≤ c.toNat ∧ c.toNat ≤ 102 then some (c.toNat - 87)
  else if 65 ≤ c.toNat ∧ c.toNat ≤ 70 then some (c.toNat - 55)
  else none

def hex4 (a b c d : Char) : Option Nat :=
  match fromHexDigit a, fromHexDigit b, fromHexDigit c, fromHexDigit d with
  | some x, some y, some z, some w => some (x * 4096 + y * 256 + z * 16 + w)
  | _, _, _, _ => none

def consChar (c : Char) (r : Option (List Char × List Char)) :
    Option (List Char × List Char) :=
  r.map (fun p => (c :: p.1, p.2))

mutual
/-- Body of a JSON string after the opening quote: returns the decoded
characters and the remaining input after the closing quote. -/
def parseStrBody : List Char → Option (List Char × List Char)
  | [] => none
  | c :: rest =>
    if c = '"' then some ([], rest)
    else if c = '\\' then parseEsc rest
    else if 0x20 ≤ c.toNat then consChar c (parseStrBody rest)
    else none
  termination_by cs => cs.length * 4
  decreasing_by all_goals simp_arith [List.length]

/-- One escape sequence after a backslash. -/
def parseEsc : List Char → Option (List Char × List Char)
  | [] => none
  | e :: r =>
    if e = '"' then consChar '"' (parseStrBody r)
    else if e = '\\' then consChar '\\' (parseStrBody r)
    else if e = '/' then consChar '/' (parseStrBody r)
    else if e = 'b' then consChar '\x08' (parseStrBody r)
    else if e = 'f' then consChar '\x0c' (parseStrBody r)
    else if e = 'n' then consChar '\x0a' (parseStrBody r)
    else if e = 'r' then consChar '\x0d' (parseStrBody r)
    else if e = 't' then consChar '\x09' (parseStrBody r)
    else if e = 'u' then parseU r
    else none
  termination_by cs => cs.length * 4 + 3
  decreasing_by all_goals simp_arith [List.length]

/-- A `\uXXXX` escape (after the `\u`): four hex digits required. -/
def parseU : List Char → Option (List Char × List Char)
  | a :: b :: c :: d :: r2 => parseUHex (hex4 a b c d) r2
  | _ => none
  termination_by cs => cs.length * 4 + 2
  decreasing_by all_goals simp_arith [List.length]

/-- Interpret the decoded hex value: a leading UTF-16 surrogate must be
followed by a matching trailing `\uXXXX`; a lone trailing surrogate is
rejected (it would not be a Unicode scalar value). -/
def parseUHex : Option Nat → List Char → Option (List Char × List Char)
  | none, _ => none
  | some n, r2 =>
    if 0xd800 ≤ n ∧ n ≤ 0xdbff then parseUPair n r2
    else if 0xdc00 ≤ n ∧ n ≤ 0xdfff then none
    else consChar (Char.ofNat n) (parseStrBody r2)
  termination_by _ cs => cs.length * 4 + 1
  decreasing_by all_goals simp_arith [List.length]

/-- The trailing `\uXXXX` of a surrogate pair whose leading unit was `n`. -/
def parseUPair (n : Nat) : List Char → Option (List Char × List Char)
  | x :: y :: a2 :: b2 :: c2 :: d2 :: r3 =>
    if x = '\\' ∧ y = 'u' then parseUHex2 n (hex4 a2 b2 c2 d2) r3 else none
  | _ => none
  termination_by cs => cs.length * 4
  decreasing_by all_goals simp_arith [List.length]

/-- Combine surrogate units `n` (leading) and `m` (trailing). -/
def parseUHex2 (n : Nat) : Option Nat → List Char → Option (List Char × List Char)
  | none, _ => none
  | some m, r3 =>
    if 0xdc00 ≤ m ∧ m ≤ 0xdfff then
      consChar (Char.ofNat (0x10000 + (n - 0xd800) * 0x400 + (m - 0xdc00)))
        (parseStrBody r3)
    else none
  termination_by _ cs => cs.length * 4 + 1
  decreasing_by all_goals simp_arith [List.length]
end

/-- Greedy run of decimal digits, accumulating left to right. -/
def parseDigits (cs : List Char) (acc : Nat) : Nat × List Char :=
  match cs with
  | c :: rest =>
    if c.isDigit then parseDigits rest (acc * 10 + (c.toNat - 48)) else (acc, cs)
  | [] => (acc, [])

/-- Accept a completed digit run unless a float marker follows (floats are
outside the model). -/
def finishNum : Nat × List Char → Option (Nat × List Char)
  | (m, cs) =>
    match cs with
    | c2 :: _ => if c2 = '.' ∨ c2 = 'e' ∨ c2 = 'E' then none else some (m, cs)
    | [] => some (m, [])

/-- A number token starting at a digit (sign already consumed). -/
def parseNumTail (cs : List Char) : Option (Nat × List Char) :=
  match cs with
  | c :: _ => if c.isDigit then finishNum (parseDigits cs 0) else none
  | [] => none

/-- A three-character keyword tail (for `null`/`true`). -/
def parseLit3 (a b c : Char) (v : JValue) : List Char → Option (JValue × List Char)
  | x1 :: x2 :: x3 :: r => if x1 = a ∧ x2 = b ∧ x3 = c then some (v, r) else none
  | _ => none

/-- A four-character keyword tail (for `false`). -/
def parseLit4 (a b c d : Char) (v : JValue) : List Char → Option (JValue × List Char)
  | x1 :: x2 :: x3 :: x4 :: r =>
    if x1 = a ∧ x2 = b ∧ x3 = c ∧ x4 = d then some (v, r) else none
  | _ => none

mutual
/-- One JSON value starting at `cs` (leading whitespace allowed). -/
def parseVal : Nat → List Char → Option (JValue × List Char)
  | 0, _ => none
  | fuel + 1, cs => parseValCore fuel (skipWs cs)
  termination_by fuel _ => 16 * fuel + 8
  decreasing_by all_goals omega

/-- Dispatch on the first significant character. -/
def parseValCore (fuel : Nat) : List Char → Option (JValue × List Char)
  | [] => none
  | c :: rest =>
    if c = 'n' then parseLit3 'u' 'l' 'l' .null rest
    else if c = 't' then parseLit3 'r' 'u' 'e' (.boolV true) rest
    else if c = 'f' then parseLit4 'a' 'l' 's' 'e' (.boolV false) rest
    else if c = '"' then
      (parseStrBody rest).map (fun p => (.str (String.mk p.1), p.2))
    else if c = '[' then parseArrStart fuel (skipWs rest)
    else if c = '\x7b' then parseObjStart fuel (skipWs rest)
    else if c = '-' then
      (parseNumTail rest).map (fun p => (.num (-(p.1 : Int)), p.2))
    else if c.isDigit then
      (parseNumTail (c :: rest)).map (fun p => (.num (p.1 : Int), p.2))
    else none
  termination_by _ => 16 * fuel + 7
  decreasing_by all_goals omega

/-- After `[`: empty array or the first item. -/
def parseArrStart (fuel : Nat) : List Char → Option (JValue × List Char)
  | [] => none
  | c2 :: r2 => if c2 = ']' then some (.arr [], r2) else parseArrItems fuel (c2 :: r2) []
  termination_by _ => 16 * fuel + 6
  decreasing_by all_goals omega

/-- Comma-separated array items up to the closing bracket; `acc` holds the
items parsed so far, in reverse. -/
def parseArrItems : Nat → List Char → List JValue → Option (JValue × List Char)
  | 0, _, _ => none
  | fuel + 1, cs, acc => parseArrCont fuel (parseVal fuel cs) acc
  termination_by fuel _ _ => 16 * fuel + 5
  decreasing_by all_goals omega

/-- Continue after parsing one array item. -/
def parseArrCont (fuel : Nat) :
    Option (JValue × List Char) → List JValue → Option (JValue × List Char)
  | none, _ => none
  | some (v, rest), acc => parseArrSep fuel v acc (skipWs rest)
  termination_by _ _ => 16 * fuel + 7
  decreasing_by all_goals omega

/-- Separator or closer after an array item. -/
def parseArrSep (fuel : Nat) (v : JValue) (acc : List JValue) :
    List Char → Option (JValue × List Char)
  | [] => none
  | c :: r2 =>
    if c = ',' then parseArrItems fuel r2 (v :: acc)
    else if c = ']' then some (.arr (v :: acc).reverse, r2)
    else none
  termination_by _ => 16 * fuel + 6
  decreasing_by all_goals omega

/-- After a `{`: empty object or the first member. -/
def parseObjStart (fuel : Nat) : List Char → Option (JValue × List Char)
  | [] => none
  | c2 :: r2 =>
    if c2 = '\x7d' then some (.obj [], r2) else parseObjItems fuel (c2 :: r2) []
  termination_by _ => 16 * fuel + 6
  decreasing_by all_goals omega

/-- Comma-separated members up to the closing brace; `acc` holds the
members parsed so far, in reverse. -/
def parseObjItems : Nat → List Char → List (String × JValue) →
    Option (JValue × List Char)
  | 0, _, _ => none
  | fuel + 1, cs, acc => parseObjKey fuel (skipWs cs) acc
  termination_by fuel _ _ => 16 * fuel + 5
  decreasing_by all_goals omega

/-- A member must start with a quoted key. -/
def parseObjKey (fuel : Nat) :
    List Char → List (String × JValue) → Option (JValue × List Char)
  | c :: rest, acc =>
    if c = '"' then parseObjColon fuel (parseStrBody rest) acc else none
  | [], _ => none
  termination_by _ _ => 16 * fuel + 14
  decreasing_by all_goals omega

/-- After the key string: expect a colon. -/
def parseObjColon (fuel : Nat) :
    Option (List Char × List Char) → List (String × JValue) →
    Option (JValue × List Char)
  | none, _ => none
  | some (kcs, r2), acc => parseObjColon2 fuel kcs (skipWs r2) acc
  termination_by _ _ => 16 * fuel + 13
  decreasing_by all_goals omega

/-- Consume the colon, then the member value. -/
def parseObjColon2 (fuel : Nat) (kcs : List Char) :
    List Char → List (String × JValue) → Option (JValue × List Char)
  | c2 :: r3, acc =>
    if c2 = ':' then parseObjVal fuel kcs (parseVal fuel r3) acc else none
  | [], _ => none
  termination_by _ _ => 16 * fuel + 12
  decreasing_by all_goals omega

/-- Continue after parsing one member value. -/
def parseObjVal (fuel : Nat) (kcs : List Char) :
    Option (JValue × List Char) → List (String × JValue) →
    Option (JValue × List Char)
  | none, _ => none
  | some (v, r4), acc => parseObjSep fuel (String.mk kcs) v (skipWs r4) acc
  termination_by _ _ => 16 * fuel + 7
  decreasing_by all_goals omega

/-- Separator or closer after an object member. -/
def parseObjSep (fuel : Nat) (k : String) (v : JValue) :
    List Char → List (String × JValue) → Option (JValue × List Char)
  | c3 :: r5, acc =>
    if c3 = ',' then parseObjItems fuel r5 ((k, v) :: acc)
    else if c3 = '\x7d' then some (.obj ((k, v) :: acc).reverse, r5)
    else none
  | [], _ => none
  termination_by _ _ => 16 * fuel + 6
  decreasing_by all_goals omega
end

/-- `json.loads(s)` (requires the whole input to be one JSON document). -/
def loads (s : String) : Option JValue :=
  match parseVal (2 * s.length + 2) s.data with
  | some (v, rest) => if skipWs rest = [] then some v else none
  | none => none

/-! ## Round trip: `loads (dumps v) = some v` -/

theorem char_valid_nat (c : Char) :
    c.toNat < 0xd800 ∨ (0xdfff < c.toNat ∧ c.toNat < 0x110000) := by
  rcases c.valid with h | ⟨h1, h2⟩
  · left
    exact h
  · right
    exact ⟨h1, h2⟩

theorem fromHexDigit_toHexDigit : ∀ d : Nat, d < 16 → fromHexDigit (toHexDigit d) = some d := by
  decide

theorem hex4_toHex4 (n : Nat) (h : n < 0x10000) :
    hex4 (toHexDigit (n / 4096 % 16)) (toHexDigit (n / 256 % 16))
      (toHexDigit (n / 16 % 16)) (toHexDigit (n % 16)) = some n := by
  have e1 : fromHexDigit (toHexDigit (n / 4096 % 16)) = some (n / 4096 % 16) :=
    fromHexDigit_toHexDigit _ (Nat.mod_lt _ (by omega))
  have e2 : fromHexDigit (toHexDigit (n / 256 % 16)) = some (n / 256 % 16) :=
    fromHexDigit_toHexDigit _ (Nat.mod_lt _ (by omega))
  have e3 : fromHexDigit (toHexDigit (n / 16 % 16)) = some (n / 16 % 16) :=
    fromHexDigit_toHexDigit _ (Nat.mod_lt _ (by omega))
  have e4 : fromHexDigit (toHexDigit (n % 16)) = some (n % 16) :=
    fromHexDigit_toHexDigit _ (Nat.mod_lt _ (by omega))
  simp only [hex4, e1, e2, e3, e4, Option.some.injEq]
  omega

theorem consChar_some (c : Char) (s rest : List Char) :
    consChar c (some (s, rest)) = some (c :: s, rest) := rfl

theorem parseStrBody_cons (c : Char) (rest : List Char) :
    parseStrBody (c :: rest) =
      if c = '"' then some ([], rest)
      else if c = '\\' then parseEsc rest
      else if 0x20 ≤ c.toNat then consChar c (parseStrBody rest)
      else none := by
  simp only [parseStrBody]

theorem parseEsc_cons (e : Char) (r : List Char) :
    parseEsc (e :: r) =
      if e = '"' then consChar '"' (parseStrBody r)
      else if e = '\\' then consChar '\\' (parseStrBody r)
      else if e = '/' then consChar '/' (parseStrBody r)
      else if e = 'b' then consChar '\x08' (parseStrBody r)
      else if e = 'f' then consChar '\x0c' (parseStrBody r)
      else if e = 'n' then consChar '\x0a' (parseStrBody r)
      else if e = 'r' then consChar '\x0d' (parseStrBody r)
      else if e = 't' then consChar '\x09' (parseStrBody r)
      else if e = 'u' then parseU r
      else none := by
  simp only [parseEsc]

theorem parseStrBody_escapeChar (c : Char) (tail : List Char) :
    parseStrBody (escapeChar c ++ tail) = consChar c (parseStrBody tail) := by
  by_cases h1 : c = '"'
  · subst h1
    have he : escapeChar '"' = ['\\', '"'] := rfl
    rw [he, List.cons_append, List.cons_append, List.nil_append, parseStrBody_cons,
      if_neg (by decide), if_pos rfl, parseEsc_cons, if_pos rfl]
  by_cases h2 : c = '\\'
  · subst h2
    have he : escapeChar '\\' = ['\\', '\\'] := rfl
    rw [he, List.cons_append, List.cons_append, List.nil_append, parseStrBody_cons,
      if_neg (by decide), if_pos rfl, parseEsc_cons, if_neg (by decide), if_pos rfl]
  by_cases h3 : c = '\x08'
  · subst h3
    have he : escapeChar '\x08' = ['\\', 'b'] := rfl
    rw [he, List.cons_append, List.cons_append, List.nil_append, parseStrBody_cons,
      if_neg (by decide), if_pos rfl, parseEsc_cons, if_neg (by decide),
      if_neg (by decide), if_neg (by decide), if_pos rfl]
  by_cases h4 : c = '\x09'
  · subst h4
    have he : escapeChar '\x09' = ['\\', 't'] := rfl
    rw [he, List.cons_append, List.cons_append, List.nil_append, parseStrBody_cons,
      if_neg (by decide), if_pos rfl, parseEsc_cons, if_neg (by decide),
      if_neg (by decide), if_neg (by decide), if_neg (by decide), if_neg (by decide),
      if_neg (by decide), if_neg (by decide), if_pos rfl]
  by_cases h5 : c = '\x0a'
  · subst h5
    have he : escapeChar '\x0a' = ['\\', 'n'] := rfl
    rw [he, List.cons_append, List.cons_append, List.nil_append, parseStrBody_cons,
      if_neg (by decide), if_pos rfl, parseEsc_cons, if_neg (by decide),
      if_neg (by decide), if_neg (by decide), if_neg (by decide), if_neg (by decide),
      if_pos rfl]
  by_cases h6 : c = '\x0c'
  · subst h6
    have he : escapeChar '\x0c' = ['\\', 'f'] := rfl
    rw [he, List.cons_append, List.cons_append, List.nil_append, parseStrBody_cons,
      if_neg (by decide), if_pos rfl, parseEsc_cons, if_neg (by decide),
      if_neg (by decide), if_neg (by decide), if_neg (by decide), if_pos rfl]
  by_cases h7 : c = '\x0d'
  · subst h7
    have he : escapeChar '\x0d' = ['\\', 'r'] := rfl
    rw [he, List.cons_append, List.cons_append, List.nil_append, parseStrBody_cons,
      if_neg (by decide), if_pos rfl, parseEsc_cons, if_neg (by decide),
      if_neg (by decide), if_neg (by decide), if_neg (by decide), if_neg (by decide),
      if_neg (by decide), if_pos rfl]
  by_cases h8 : 0x20 ≤ c.toNat ∧ c.toNat ≤ 0x7e
  · rw [escapeChar.eq_def, if_neg h1, if_neg h2, if_neg h3, if_neg h4, if_neg h5,
      if_neg h6, if_neg h7, if_pos h8, List.cons_append, List.nil_append,
      parseStrBody_cons, if_neg h1, if_neg h2, if_pos h8.1]
  by_cases h9 : c.toNat < 0x10000
  · -- single \uXXXX escape
    have hval := char_valid_nat c
    rw [escapeChar.eq_def, if_neg h1, if_neg h2, if_neg h3, if_neg h4, if_neg h5,
      if_neg h6, if_neg h7, if_neg h8, if_pos h9]
    simp only [toHex4, List.cons_append, List.nil_append]
    rw [parseStrBody_cons, if_neg (by decide), if_pos rfl, parseEsc_cons,
      if_neg (by decide), if_neg (by decide), if_neg (by decide), if_neg (by decide),
      if_neg (by decide), if_neg (by decide), if_neg (by decide), if_neg (by decide),
      if_pos rfl]
    simp only [parseU]
    rw [hex4_toHex4 c.toNat h9]
    simp only [parseUHex]
    have hnsur1 : ¬ (0xd800 ≤ c.toNat ∧ c.toNat ≤ 0xdbff) := by
      rcases hval with hlt | ⟨hgt, _⟩ <;> omega
    have hnsur2 : ¬ (0xdc00 ≤ c.toNat ∧ c.toNat ≤ 0xdfff) := by
      rcases hval with hlt | ⟨hgt, _⟩ <;> omega
    rw [if_neg hnsur1, if_neg hnsur2, Char.ofNat_toNat]
  · -- surrogate pair
    have hval := char_valid_nat c
    have hlt : c.toNat < 0x110000 := by
      rcases hval with hlt | ⟨_, hlt2⟩ <;> omega
    rw [escapeChar.eq_def, if_neg h1, if_neg h2, if_neg h3, if_neg h4, if_neg h5,
      if_neg h6, if_neg h7, if_neg h8, if_neg h9]
    simp only [toHex4, List.cons_append, List.nil_append, List.append_assoc]
    rw [parseStrBody_cons, if_neg (by decide), if_pos rfl, parseEsc_cons,
      if_neg (by decide), if_neg (by decide), if_neg (by decide), if_neg (by decide),
      if_neg (by decide), if_neg (by decide), if_neg (by decide), if_neg (by decide),
      if_pos rfl]
    have hhi : 0xd800 + (c.toNat - 0x10000) / 0x400 < 0x10000 := by omega
    have hmod := Nat.mod_lt (c.toNat - 0x10000) (show 0 < 0x400 by omega)
    have hlo : 0xdc00 + (c.toNat - 0x10000) % 0x400 < 0x10000 := by omega
    simp only [parseU]
    rw [hex4_toHex4 _ hhi]
    simp only [parseUHex]
    have hdivle : (c.toNat - 0x10000) / 0x400 ≤ 0x3ff := by omega
    rw [if_pos (by omega : 0xd800 ≤ 0xd800 + (c.toNat - 0x10000) / 0x400 ∧
      0xd800 + (c.toNat - 0x10000) / 0x400 ≤ 0xdbff)]
    simp only [parseUPair, and_self, if_true]
    rw [hex4_toHex4 _ hlo]
    simp only [parseUHex2]
    rw [if_pos (by omega : 0xdc00 ≤ 0xdc00 + (c.toNat - 0x10000) % 0x400 ∧
      0xdc00 + (c.toNat - 0x10000) % 0x400 ≤ 0xdfff)]
    have harith : 0x10000 + (0xd800 + (c.toNat - 0x10000) / 0x400 - 0xd800) * 0x400 +
        (0xdc00 + (c.toNat - 0x10000) % 0x400 - 0xdc00) = c.toNat := by
      have := Nat.div_add_mod (c.toNat - 0x10000) 0x400
      omega
    rw [harith, Char.ofNat_toNat]

theorem parseStrBody_escStr (s tail : List Char) :
    parseStrBody (escStr s ++ '"' :: tail) = some (s, tail) := by
  induction s with
  | nil =>
    rw [escStr, List.nil_append, parseStrBody, if_pos rfl]
  | cons c t ih =>
    rw [escStr, List.append_assoc, parseStrBody_escapeChar, ih, consChar_some]

theorem toHexDigit_isDigit : ∀ d : Nat, d < 10 → (toHexDigit d).isDigit = true := by
  decide

theorem toHexDigit_toNat : ∀ d : Nat, d < 10 → (toHexDigit d).toNat - 48 = d := by
  decide

theorem natDigits_head (n : Nat) :
    ∃ c t, natDigits n = c :: t ∧ c.isDigit = true := by
  induction n using Nat.strong_induction_on with
  | _ n ih =>
    by_cases h : n < 10
    · exact ⟨toHexDigit n, [], by rw [natDigits, dif_pos h], toHexDigit_isDigit n h⟩
    · obtain ⟨c, t, hct, hd⟩ := ih (n / 10) (Nat.div_lt_self (by omega) (by omega))
      refine ⟨c, t ++ [toHexDigit (n % 10)], ?_, hd⟩
      rw [natDigits, dif_neg h, hct, List.cons_append]

/-- `10 ^ (number of digits of n)`. -/
def pow10 (n : Nat) : Nat :=
  if _h : n < 10 then 10 else 10 * pow10 (n / 10)
  termination_by n
  decreasing_by exact Nat.div_lt_self (by omega) (by omega)

theorem parseDigits_natDigits (n : Nat) : ∀ rest acc,
    parseDigits (natDigits n ++ rest) acc = parseDigits rest (acc * pow10 n + n) := by
  induction n using Nat.strong_induction_on with
  | _ n ih =>
    intro rest acc
    by_cases h : n < 10
    · rw [natDigits, dif_pos h, pow10, dif_pos h, List.cons_append, List.nil_append,
        parseDigits]
      rw [if_pos (toHexDigit_isDigit n h), toHexDigit_toNat n h]
    · rw [natDigits, dif_neg h, pow10, dif_neg h, List.append_assoc,
        ih (n / 10) (Nat.div_lt_self (by omega) (by omega)), List.cons_append,
        List.nil_append, parseDigits]
      rw [if_pos (toHexDigit_isDigit _ (Nat.mod_lt _ (by omega))),
        toHexDigit_toNat _ (Nat.mod_lt _ (by omega))]
      congr 1
      have := Nat.div_add_mod n 10
      ring_nf
      omega

/-- What may legally follow a rendered JSON value inside a bigger rendered
document: nothing, or a separator/closer. -/
def followOk (cs : List Char) : Prop :=
  match cs with
  | [] => True
  | c :: _ => c = ',' ∨ c = ']' ∨ c = '\x7d'

theorem followOk_not_digit {c : Char} {t : List Char} (h : followOk (c :: t)) :
    c.isDigit = false := by
  rcases h with h | h | h <;> subst h <;> decide

theorem parseNumTail_natDigits (n : Nat) (rest : List Char) (h : followOk rest) :
    parseNumTail (natDigits n ++ rest) = some (n, rest) := by
  obtain ⟨c, t, hct, hd⟩ := natDigits_head n
  have hpd : parseDigits (natDigits n ++ rest) 0 = (n, rest) := by
    rw [parseDigits_natDigits n rest 0]
    cases rest with
    | nil => rw [parseDigits]; congr 1; omega
    | cons c2 t2 =>
      rw [parseDigits, if_neg (by simp [followOk_not_digit h])]
      congr 1
      omega
  rw [hct, List.cons_append]
  simp only [parseNumTail]
  rw [if_pos hd, ← List.cons_append, ← hct, hpd]
  cases hr : rest with
  | nil => rfl
  | cons c2 t2 =>
    subst hr
    simp only [finishNum]
    rw [if_neg (by rcases h with h | h | h <;> subst h <;> decide)]

theorem skipWs_not_ws {c : Char} (t : List Char) (h : isJsonWs c = false) :
    skipWs (c :: t) = c :: t := by
  simp [skipWs, List.dropWhile_cons, h]

theorem skipWs_ws {c : Char} (t : List Char) (h : isJsonWs c = true) :
    skipWs (c :: t) = skipWs t := by
  simp [skipWs, List.dropWhile_cons, h]

theorem isDigit_not_ws {c : Char} (h : c.isDigit = true) : isJsonWs c = false := by
  have h1 : ¬ c = ' ' := by
    intro hc
    subst hc
    exact absurd h (by decide)
  have h2 : ¬ c = '\x09' := by
    intro hc
    subst hc
    exact absurd h (by decide)
  have h3 : ¬ c = '\x0a' := by
    intro hc
    subst hc
    exact absurd h (by decide)
  have h4 : ¬ c = '\x0d' := by
    intro hc
    subst hc
    exact absurd h (by decide)
  simp [isJsonWs, h1, h2, h3, h4]

theorem isDigit_ne {c : Char} (x : Char) (h : c.isDigit = true)
    (hx : x.isDigit = false) : ¬ c = x := by
  intro hc
  subst hc
  rw [h] at hx
  exact Bool.noConfusion hx

/-- Induction principle for the nested inductive `JValue`. -/
def jvalueInd {motive : JValue → Prop}
    (hnull : motive .null)
    (hbool : ∀ b, motive (.boolV b))
    (hnum : ∀ n, motive (.num n))
    (hstr : ∀ s, motive (.str s))
    (harr : ∀ es, (∀ e ∈ es, motive e) → motive (.arr es))
    (hobj : ∀ fs, (∀ kv ∈ fs, motive kv.2) → motive (.obj fs)) :
    ∀ v, motive v
  | .null => hnull
  | .boolV b => hbool b
  | .num n => hnum n
  | .str s => hstr s
  | .arr es =>
    harr es (fun e he =>
      have : sizeOf e < sizeOf (JValue.arr es) := by
        have := List.sizeOf_lt_of_mem he
        simp only [JValue.arr.sizeOf_spec]
        omega
      jvalueInd hnull hbool hnum hstr harr hobj e)
  | .obj fs =>
    hobj fs (fun kv hkv =>
      have h1 : sizeOf kv.2 < 1 + sizeOf fs := by
        have h2 := List.sizeOf_lt_of_mem hkv
        have h3 : sizeOf kv.2 < sizeOf kv := by
          obtain ⟨a, b⟩ := kv
          simp only [Prod.mk.sizeOf_spec]
          omega
        omega
      jvalueInd hnull hbool hnum hstr harr hobj kv.2)
  termination_by v => sizeOf v

mutual
/-- Parser fuel sufficient for one rendered value. -/
def jfuel : JValue → Nat
  | .null => 1
  | .boolV _ => 1
  | .num _ => 1
  | .str _ => 1
  | .arr es => 1 + arrFuel es
  | .obj fs => 1 + objFuel fs

def arrFuel : List JValue → Nat
  | [] => 1
  | e :: tl => 1 + jfuel e + arrFuel tl

def objFuel : List (String × JValue) → Nat
  | [] => 1
  | f :: tl => 1 + jfuel f.2 + objFuel tl
end

theorem renderChars_head (v : JValue) :
    ∃ c t, renderChars v = c :: t ∧ isJsonWs c = false ∧ c ≠ ']' ∧ c ≠ '\x7d' := by
  cases v with
  | null => refine ⟨'n', _, rfl, ?_, ?_, ?_⟩ <;> decide
  | boolV b =>
    cases b with
    | true => refine ⟨'t', _, rfl, ?_, ?_, ?_⟩ <;> decide
    | false => refine ⟨'f', _, rfl, ?_, ?_, ?_⟩ <;> decide
  | num n =>
    by_cases hn : n < 0
    · refine ⟨'-', natDigits n.natAbs, ?_, by decide, by decide, by decide⟩
      simp only [renderChars, intRender, if_pos hn]
    · obtain ⟨c, t, hct, hd⟩ := natDigits_head n.toNat
      refine ⟨c, t, ?_, isDigit_not_ws hd, isDigit_ne _ hd (by decide),
        isDigit_ne _ hd (by decide)⟩
      simp only [renderChars, intRender, if_neg hn, hct]
  | str s => refine ⟨'"', _, rfl, ?_, ?_, ?_⟩ <;> decide
  | arr es =>
    cases es with
    | nil => refine ⟨'[', _, rfl, ?_, ?_, ?_⟩ <;> decide
    | cons e tl => refine ⟨'[', _, rfl, ?_, ?_, ?_⟩ <;> decide
  | obj fs =>
    cases fs with
    | nil => refine ⟨'\x7b', _, rfl, ?_, ?_, ?_⟩ <;> decide
    | cons f tl => refine ⟨'\x7b', _, rfl, ?_, ?_, ?_⟩ <;> decide

theorem parseVal_cons_ws (fuel : Nat) (cs : List Char) :
    parseVal fuel (' ' :: cs) = parseVal fuel cs := by
  cases fuel with
  | zero => simp only [parseVal]
  | succ f =>
    simp only [parseVal]
    rw [skipWs_ws cs (by decide)]

theorem parseObjItems_cons_ws (fuel : Nat) (cs : List Char)
    (acc : List (String × JValue)) :
    parseObjItems fuel (' ' :: cs) acc = parseObjItems fuel cs acc := by
  cases fuel with
  | zero => simp only [parseObjItems]
  | succ f =>
    simp only [parseObjItems]
    rw [skipWs_ws cs (by decide)]

theorem parseVal_succ (f : Nat) (cs : List Char) :
    parseVal (f + 1) cs = parseValCore f (skipWs cs) := by
  simp only [parseVal]

theorem parseArrItems_succ (f : Nat) (cs : List Char) (acc : List JValue) :
    parseArrItems (f + 1) cs acc = parseArrCont f (parseVal f cs) acc := by
  simp only [parseArrItems]

theorem parseObjItems_succ (f : Nat) (cs : List Char)
    (acc : List (String × JValue)) :
    parseObjItems (f + 1) cs acc = parseObjKey f (skipWs cs) acc := by
  simp only [parseObjItems]

theorem parseArrItems_cons_ws (fuel : Nat) (cs : List Char) (acc : List JValue) :
    parseArrItems fuel (' ' :: cs) acc = parseArrItems fuel cs acc := by
  cases fuel with
  | zero => simp only [parseArrItems]
  | succ f =>
    simp only [parseArrItems]
    rw [parseVal_cons_ws]

theorem followOk_comma (t : List Char) : followOk (',' :: t) := Or.inl rfl

theorem followOk_rbracket (t : List Char) : followOk (']' :: t) :=
  Or.inr (Or.inl rfl)

theorem followOk_rbrace (t : List Char) : followOk ('\x7d' :: t) :=
  Or.inr (Or.inr rfl)

theorem followOk_renderElems (l : List JValue) (rest : List Char) :
    followOk (renderElems l ++ ']' :: rest) := by
  cases l with
  | nil =>
    simp only [renderElems, List.nil_append]
    exact followOk_rbracket rest
  | cons e tl =>
    simp only [renderElems, List.cons_append]
    exact followOk_comma _

theorem followOk_renderFields (l : List (String × JValue)) (rest : List Char) :
    followOk (renderFields l ++ '\x7d' :: rest) := by
  cases l with
  | nil =>
    simp only [renderFields, List.nil_append]
    exact followOk_rbrace rest
  | cons f tl =>
    simp only [renderFields, List.cons_append]
    exact followOk_comma _

theorem parseArrItems_render (l : List JValue) :
    ∀ (e : JValue) (acc : List JValue) (f : Nat) (rest : List Char),
      (∀ x : JValue, (x = e ∨ x ∈ l) → ∀ f2 (rest2 : List Char), jfuel x ≤ f2 →
        followOk rest2 → parseVal f2 (renderChars x ++ rest2) = some (x, rest2)) →
      arrFuel (e :: l) ≤ f →
      followOk rest →
      parseArrItems f (renderChars e ++ (renderElems l ++ (']' :: rest))) acc =
        some (.arr (acc.reverse ++ e :: l), rest) := by
  induction l with
  | nil =>
    intro e acc f rest hPV hfuel hrest
    have hf1 : 1 ≤ f := by
      simp only [arrFuel] at hfuel
      omega
    obtain ⟨f2, rfl⟩ : ∃ f2, f = f2 + 1 := ⟨f - 1, by omega⟩
    have hje : jfuel e ≤ f2 := by
      simp only [arrFuel] at hfuel
      omega
    rw [parseArrItems_succ]
    simp only [renderElems, List.nil_append]
    rw [hPV e (Or.inl rfl) f2 (']' :: rest) hje (followOk_rbracket rest)]
    simp only [parseArrCont]
    rw [skipWs_not_ws _ (by decide)]
    simp only [parseArrSep]
    simp
  | cons e2 tl ih =>
    intro e acc f rest hPV hfuel hrest
    have hf1 : 1 ≤ f := by
      simp only [arrFuel] at hfuel
      omega
    obtain ⟨f2, rfl⟩ : ∃ f2, f = f2 + 1 := ⟨f - 1, by omega⟩
    have hje : jfuel e ≤ f2 := by
      simp only [arrFuel] at hfuel
      omega
    have hfl : arrFuel (e2 :: tl) ≤ f2 := by
      simp only [arrFuel] at hfuel ⊢
      omega
    rw [parseArrItems_succ]
    simp only [renderElems, List.cons_append, List.append_assoc]
    rw [hPV e (Or.inl rfl) f2 _ hje (followOk_comma _)]
    simp only [parseArrCont]
    rw [skipWs_not_ws _ (by decide)]
    simp only [parseArrSep, if_true]
    rw [parseArrItems_cons_ws]
    rw [ih e2 (e :: acc) f2 rest (fun x hx f3 r3 hf3 hr3 => by
      rcases hx with hx | hx
      · exact hPV x (Or.inr (by simp [hx])) f3 r3 hf3 hr3
      · exact hPV x (Or.inr (by simp [hx])) f3 r3 hf3 hr3) hfl hrest]
    simp

theorem string_mk_data (s : String) : String.mk s.data = s := by
  cases s
  rfl

theorem parseObjItems_render (l : List (String × JValue)) :
    ∀ (k : String) (v : JValue) (acc : List (String × JValue)) (f : Nat)
      (rest : List Char),
      (∀ x : String × JValue, (x = (k, v) ∨ x ∈ l) → ∀ f2 (rest2 : List Char),
        jfuel x.2 ≤ f2 → followOk rest2 →
        parseVal f2 (renderChars x.2 ++ rest2) = some (x.2, rest2)) →
      objFuel ((k, v) :: l) ≤ f →
      followOk rest →
      parseObjItems f (renderField (k, v) ++ (renderFields l ++ ('\x7d' :: rest))) acc =
        some (.obj (acc.reverse ++ (k, v) :: l), rest) := by
  induction l with
  | nil =>
    intro k v acc f rest hPV hfuel hrest
    have hf1 : 1 ≤ f := by
      simp only [objFuel] at hfuel
      omega
    obtain ⟨f2, rfl⟩ : ∃ f2, f = f2 + 1 := ⟨f - 1, by omega⟩
    have hjv : jfuel v ≤ f2 := by
      simp only [objFuel] at hfuel
      omega
    rw [parseObjItems_succ]
    simp only [renderField, renderFields, List.nil_append, List.cons_append,
      List.append_assoc]
    rw [skipWs_not_ws _ (by decide)]
    simp only [parseObjKey, if_true]
    rw [parseStrBody_escStr]
    simp only [parseObjColon]
    rw [skipWs_not_ws _ (by decide)]
    simp only [parseObjColon2, if_true]
    rw [parseVal_cons_ws]
    rw [hPV (k, v) (Or.inl rfl) f2 _ hjv (followOk_rbrace rest)]
    simp only [parseObjVal]
    rw [skipWs_not_ws _ (by decide)]
    simp only [parseObjSep]
    rw [string_mk_data]
    simp
  | cons g tl ih =>
    obtain ⟨k2, v2⟩ := g
    intro k v acc f rest hPV hfuel hrest
    have hf1 : 1 ≤ f := by
      simp only [objFuel] at hfuel
      omega
    obtain ⟨f2, rfl⟩ : ∃ f2, f = f2 + 1 := ⟨f - 1, by omega⟩
    have hjv : jfuel v ≤ f2 := by
      simp only [objFuel] at hfuel
      omega
    have hfl : objFuel ((k2, v2) :: tl) ≤ f2 := by
      simp only [objFuel] at hfuel ⊢
      omega
    rw [parseObjItems_succ]
    simp only [renderField, renderFields, List.cons_append, List.append_assoc]
    rw [skipWs_not_ws _ (by decide)]
    simp only [parseObjKey, if_true]
    rw [parseStrBody_escStr]
    simp only [parseObjColon]
    rw [skipWs_not_ws _ (by decide)]
    simp only [parseObjColon2, if_true]
    rw [parseVal_cons_ws]
    rw [hPV (k, v) (Or.inl rfl) f2 _ hjv (followOk_comma _)]
    simp only [parseObjVal]
    rw [skipWs_not_ws _ (by decide)]
    simp only [parseObjSep, if_true]
    rw [string_mk_data, parseObjItems_cons_ws]
    have hih := ih k2 v2 ((k, v) :: acc) f2 rest (fun x hx f3 r3 hf3 hr3 => by
      rcases hx with hx | hx
      · exact hPV x (Or.inr (by simp [hx])) f3 r3 hf3 hr3
      · exact hPV x (Or.inr (by simp [hx])) f3 r3 hf3 hr3) hfl hrest
    simp only [renderField, List.cons_append, List.append_assoc] at hih
    rw [hih]
    simp

theorem parseVal_renderChars (v : JValue) :
    ∀ fuel rest, jfuel v ≤ fuel → followOk rest →
      parseVal fuel (renderChars v ++ rest) = some (v, rest) := by
  induction v using jvalueInd with
  | hnull =>
    intro fuel rest hf hr
    cases fuel with
    | zero =>
      exfalso
      simp only [jfuel] at hf
      omega
    | succ f =>
      simp only [renderChars, List.cons_append, List.nil_append]
      rw [parseVal_succ, skipWs_not_ws _ (by decide)]
      simp only [parseValCore, if_true]
      simp only [parseLit3]
      simp
  | hbool b =>
    intro fuel rest hf hr
    cases fuel with
    | zero =>
      exfalso
      simp only [jfuel] at hf
      omega
    | succ f =>
      cases b with
      | true =>
        simp only [renderChars, List.cons_append, List.nil_append]
        rw [parseVal_succ, skipWs_not_ws _ (by decide)]
        simp only [parseValCore, if_true]
        simp only [parseLit3]
        simp
      | false =>
        simp only [renderChars, List.cons_append, List.nil_append]
        rw [parseVal_succ, skipWs_not_ws _ (by decide)]
        simp only [parseValCore, if_true]
        simp only [parseLit4]
        simp
  | hnum n =>
    intro fuel rest hf hr
    cases fuel with
    | zero =>
      exfalso
      simp only [jfuel] at hf
      omega
    | succ f =>
      simp only [renderChars]
      by_cases hn : n < 0
      · simp only [intRender, if_pos hn, List.cons_append]
        rw [parseVal_succ, skipWs_not_ws _ (by decide)]
        simp only [parseValCore, if_true]
        rw [parseNumTail_natDigits _ rest hr]
        simp only [Option.map_some']
        have he : -((n.natAbs : Nat) : Int) = n := by omega
        rw [he]
        simp
      · simp only [intRender, if_neg hn]
        obtain ⟨c, t, hct, hd⟩ := natDigits_head n.toNat
        rw [hct, List.cons_append, parseVal_succ, skipWs_not_ws _ (isDigit_not_ws hd)]
        simp only [parseValCore]
        rw [if_neg (isDigit_ne _ hd (by decide)), if_neg (isDigit_ne _ hd (by decide)),
          if_neg (isDigit_ne _ hd (by decide)), if_neg (isDigit_ne _ hd (by decide)),
          if_neg (isDigit_ne _ hd (by decide)), if_neg (isDigit_ne _ hd (by decide)),
          if_neg (isDigit_ne _ hd (by decide)), if_pos hd]
        rw [← List.cons_append, ← hct, parseNumTail_natDigits _ rest hr]
        simp only [Option.map_some']
        have he : ((n.toNat : Nat) : Int) = n := by omega
        rw [he]
  | hstr s =>
    intro fuel rest hf hr
    cases fuel with
    | zero =>
      exfalso
      simp only [jfuel] at hf
      omega
    | succ f =>
      simp only [renderChars, List.cons_append, List.append_assoc,
        List.singleton_append, List.nil_append]
      rw [parseVal_succ, skipWs_not_ws _ (by decide)]
      simp only [parseValCore, if_true]
      rw [parseStrBody_escStr]
      simp only [Option.map_some']
      rw [string_mk_data]
      simp
  | harr es ih =>
    intro fuel rest hf hr
    cases es with
    | nil =>
      cases fuel with
      | zero =>
        exfalso
        simp only [jfuel, arrFuel] at hf
        omega
      | succ f =>
        simp only [renderChars, List.cons_append, List.nil_append]
        rw [parseVal_succ, skipWs_not_ws _ (by decide)]
        simp only [parseValCore, if_true]
        rw [skipWs_not_ws _ (by decide)]
        simp only [parseArrStart, if_true]
        simp
    | cons e tl =>
      cases fuel with
      | zero =>
        exfalso
        simp only [jfuel] at hf
        omega
      | succ f =>
        have hfl : arrFuel (e :: tl) ≤ f := by
          simp only [jfuel] at hf
          omega
        simp only [renderChars, List.cons_append, List.append_assoc,
          List.singleton_append, List.nil_append]
        rw [parseVal_succ, skipWs_not_ws _ (by decide)]
        simp only [parseValCore, if_true]
        obtain ⟨c0, t0, hct, hws, hnb, hnb2⟩ := renderChars_head e
        rw [hct, List.cons_append, skipWs_not_ws _ hws]
        simp only [parseArrStart]
        rw [if_neg hnb, ← List.cons_append, ← hct]
        have hpa := parseArrItems_render tl e [] f rest (fun x hx f3 r3 hf3 hr3 => by
          rcases hx with hx | hx
          · exact ih x (by simp [hx]) f3 r3 hf3 hr3
          · exact ih x (by simp [hx]) f3 r3 hf3 hr3) hfl hr
        simpa using hpa
  | hobj fs ih =>
    intro fuel rest hf hr
    cases fs with
    | nil =>
      cases fuel with
      | zero =>
        exfalso
        simp only [jfuel, objFuel] at hf
        omega
      | succ f =>
        simp only [renderChars, List.cons_append, List.nil_append]
        rw [parseVal_succ, skipWs_not_ws _ (by decide)]
        simp only [parseValCore, if_true]
        rw [skipWs_not_ws _ (by decide)]
        simp only [parseObjStart, if_true]
        simp
    | cons g tl =>
      obtain ⟨k0, v0⟩ := g
      cases fuel with
      | zero =>
        exfalso
        simp only [jfuel] at hf
        omega
      | succ f =>
        have hfl : objFuel ((k0, v0) :: tl) ≤ f := by
          simp only [jfuel] at hf
          omega
        simp only [renderChars, List.cons_append, List.append_assoc,
          List.singleton_append, List.nil_append]
        rw [parseVal_succ, skipWs_not_ws _ (by decide)]
        simp only [parseValCore, if_true]
        simp only [renderField, List.cons_append, List.append_assoc]
        rw [skipWs_not_ws _ (by decide)]
        simp only [parseObjStart]
        rw [if_neg (by decide)]
        have hpo := parseObjItems_render tl k0 v0 [] f rest
          (fun x hx f3 r3 hf3 hr3 => by
            rcases hx with hx | hx
            · exact ih x (by simp [hx]) f3 r3 hf3 hr3
            · exact ih x (by simp [hx]) f3 r3 hf3 hr3) hfl hr
        simp only [renderField, List.cons_append, List.append_assoc] at hpo
        rw [hpo]
        simp

theorem jfuel_le (v : JValue) : jfuel v ≤ 2 * (renderChars v).length + 2 := by
  induction v using jvalueInd with
  | hnull => simp [jfuel, renderChars]
  | hbool b =>
    cases b <;> simp [jfuel, renderChars]
  | hnum n =>
    simp only [jfuel]
    omega
  | hstr s =>
    simp only [jfuel]
    omega
  | harr es ih =>
    cases es with
    | nil => simp [jfuel, arrFuel, renderChars]
    | cons e tl =>
      have haux : ∀ l : List JValue,
          (∀ x ∈ l, jfuel x ≤ 2 * (renderChars x).length + 2) →
          arrFuel l ≤ 2 * (renderElems l).length + 1 := by
        intro l hl
        induction l with
        | nil => simp [arrFuel, renderElems]
        | cons e2 tl2 ih2 =>
          have h1 := hl e2 (by simp)
          have h2 := ih2 (fun x hx => hl x (by simp [hx]))
          simp only [arrFuel, renderElems, List.length_cons, List.length_append]
          omega
      have h1 := ih e (by simp)
      have h2 := haux tl (fun x hx => ih x (by simp [hx]))
      simp only [jfuel, arrFuel, renderChars, List.length_cons, List.length_append]
      omega
  | hobj fs ih =>
    cases fs with
    | nil => simp [jfuel, objFuel, renderChars]
    | cons g tl =>
      have haux : ∀ l : List (String × JValue),
          (∀ x ∈ l, jfuel x.2 ≤ 2 * (renderChars x.2).length + 2) →
          objFuel l ≤ 2 * (renderFields l).length + 1 := by
        intro l hl
        induction l with
        | nil => simp [objFuel, renderFields]
        | cons g2 tl2 ih2 =>
          obtain ⟨k2, v2⟩ := g2
          have h1 := hl (k2, v2) (by simp)
          have h2 := ih2 (fun x hx => hl x (by simp [hx]))
          simp only [objFuel, renderFields, renderField, List.length_cons,
            List.length_append] at h1 h2 ⊢
          omega
      obtain ⟨k0, v0⟩ := g
      have h1 := ih (k0, v0) (by simp)
      have h2 := haux tl (fun x hx => ih x (by simp [hx]))
      simp only [jfuel, objFuel, renderChars, renderField, List.length_cons,
        List.length_append] at h1 h2 ⊢
      omega

theorem loads_eq (s : String) :
    loads s =
      match parseVal (2 * s.length + 2) s.data with
      | some (v, rest) => if skipWs rest = [] then some v else none
      | none => none := rfl

/-- CPython `json` round trip: parsing a dumped value gives it back. -/
theorem loads_dumps (v : JValue) : loads (dumps v) = some v := by
  have hfuel : jfuel v ≤ 2 * (renderChars v).length + 2 := jfuel_le v
  have hnil : followOk [] := trivial
  have h := parseVal_renderChars v (2 * (renderChars v).length + 2) [] hfuel hnil
  rw [List.append_nil] at h
  have hd : parseVal (2 * (dumps v).length + 2) (dumps v).data = some (v, []) := h
  rw [loads_eq, hd]
  rfl

/-! ## `datetime.strptime` date/time validation

`main.py` and `fc.py` validate `startDate` with
`datetime.strptime(s, "%d-%m-%Y")` and `startTime` with
`datetime.strptime(s, "%I:%M %p")`.  CPython's `_strptime` compiles these
formats to the regexes
`(3[01]|[12]\d|0[1-9]|[1-9])-(1[0-2]|0[1-9]|[1-9])-(\d\d\d\d)` and
`(1[0-2]|0[1-9]|[1-9]):([0-5]\d|\d)\s+(am|pm)` (case-insensitive), matched
against the whole string; a successful date match then builds
`datetime(year, month, day)`, which requires `1 ≤ year` and
`day ≤ daysInMonth(year, month)`.  Because no group can match the literal
separator, a full match is equivalent to splitting the string at the
separators and checking each part, which is how the executable model below
is phrased.  The model reads ASCII digits/whitespace (CPython's `\d`/`\s`
also match rare non-ASCII digit/space code points). -/

def splitOnChar (sep : Char) : List Char → List (List Char)
  | [] => [[]]
  | c :: rest =>
    if c = sep then [] :: splitOnChar sep rest
    else
      match splitOnChar sep rest with
      | [] => [[c]]
      | p :: ps => (c :: p) :: ps

def joinWith (sep : Char) : List (List Char) → List Char
  | [] => []
  | [p] => p
  | p :: ps => p ++ sep :: joinWith sep ps

/-- Numeric value of a digit string. -/
def digitsToNat (l : List Char) : Nat :=
  l.foldl (fun a c => a * 10 + (c.toNat - 48)) 0

/-- Proleptic-Gregorian leap year, as used by `datetime`. -/
def isLeap (y : Nat) : Bool :=
  y % 4 == 0 && (y % 100 != 0 || y % 400 == 0)

def daysInMonth (y m : Nat) : Nat :=
  if m = 2 then (if isLeap y then 29 else 28)
  else if m = 4 ∨ m = 6 ∨ m = 9 ∨ m = 11 then 30
  else 31

def dayOk (d : List Char) : Bool :=
  d.all Char.isDigit && ((d.length == 1 || d.length == 2) &&
    (decide (1 ≤ digitsToNat d) && decide (digitsToNat d ≤ 31)))

def monthOk (m : List Char) : Bool :=
  m.all Char.isDigit && ((m.length == 1 || m.length == 2) &&
    (decide (1 ≤ digitsToNat m) && decide (digitsToNat m ≤ 12)))

def yearOk (y : List Char) : Bool :=
  y.all Char.isDigit && (y.length == 4)

/-- `datetime.strptime(s, "%d-%m-%Y")` succeeds. -/
def acceptsDateChars (cs : List Char) : Bool :=
  match splitOnChar '-' cs with
  | [d, m, y] =>
    dayOk d && (monthOk m && (yearOk y && (decide (1 ≤ digitsToNat y) &&
      decide (digitsToNat d ≤ daysInMonth (digitsToNat y) (digitsToNat m)))))
  | _ => false

def strptime_d_m_Y (s : String) : Bool := acceptsDateChars s.data

/-- ASCII whitespace accepted by the regex `\s`. -/
def isPySpace (c : Char) : Bool :=
  c = ' ' || c = '\x09' || c = '\x0a' || c = '\x0b' || c = '\x0c' || c = '\x0d'

def hourOk (h : List Char) : Bool :=
  h.all Char.isDigit && ((h.length == 1 || h.length == 2) &&
    (decide (1 ≤ digitsToNat h) && decide (digitsToNat h ≤ 12)))

def minuteOk (m : List Char) : Bool :=
  m.all Char.isDigit &&
    (m.length == 1 || (m.length == 2 && decide (digitsToNat m ≤ 59)))

def isAmPm1 (c : Char) : Bool := c = 'A' || c = 'a' || c = 'P' || c = 'p'

def isAmPm2 (c : Char) : Bool := c = 'M' || c = 'm'

/-- Everything after the colon: minutes, one or more spaces, then AM/PM
case-insensitively (parsed from the right, since AM/PM is two characters
and the whitespace run separates it from the minutes). -/
def restOk (rest : List Char) : Bool :=
  match rest.reverse with
  | m2 :: m1 :: midrev =>
    isAmPm1 m1 && (isAmPm2 m2 && (!(midrev.takeWhile isPySpace).isEmpty &&
      minuteOk (midrev.dropWhile isPySpace).reverse))
  | _ => false

/-- `datetime.strptime(s, "%I:%M %p")` succeeds. -/
def acceptsTimeChars (cs : List Char) : Bool :=
  match splitOnChar ':' cs with
  | [h, rest] => hourOk h && restOk rest
  | _ => false

def strptime_I_M_p (s : String) : Bool := acceptsTimeChars s.data

theorem splitOnChar_ne_nil (sep : Char) (cs : List Char) :
    splitOnChar sep cs ≠ [] := by
  cases cs with
  | nil => simp [splitOnChar]
  | cons c rest =>
    by_cases h : c = sep
    · simp [splitOnChar, h]
    · simp only [splitOnChar, if_neg h]
      cases hs : splitOnChar sep rest with
      | nil => simp
      | cons p ps => simp

theorem joinWith_cons (sep : Char) (c : Char) (p : List Char)
    (ps : List (List Char)) :
    joinWith sep ((c :: p) :: ps) = c :: joinWith sep (p :: ps) := by
  cases ps with
  | nil => simp [joinWith]
  | cons q qs => simp [joinWith]

theorem joinWith_nil_cons (sep : Char) (p : List Char) (ps : List (List Char)) :
    joinWith sep ([] :: p :: ps) = sep :: joinWith sep (p :: ps) := by
  simp [joinWith]

theorem splitOnChar_cons (sep c : Char) (rest : List Char) :
    splitOnChar sep (c :: rest) =
      if c = sep then [] :: splitOnChar sep rest
      else
        match splitOnChar sep rest with
        | [] => [[c]]
        | p :: ps => (c :: p) :: ps := by
  simp only [splitOnChar]

theorem joinWith_splitOnChar (sep : Char) (cs : List Char) :
    joinWith sep (splitOnChar sep cs) = cs := by
  induction cs with
  | nil => simp [splitOnChar, joinWith]
  | cons c rest ih =>
    by_cases h : c = sep
    · subst h
      rw [splitOnChar_cons, if_pos rfl]
      cases hs : splitOnChar c rest with
      | nil => exact absurd hs (splitOnChar_ne_nil c rest)
      | cons p ps =>
        rw [joinWith_nil_cons, ← hs, ih]
    · rw [splitOnChar_cons, if_neg h]
      cases hs : splitOnChar sep rest with
      | nil => exact absurd hs (splitOnChar_ne_nil sep rest)
      | cons p ps =>
        show joinWith sep ((c :: p) :: ps) = c :: rest
        rw [joinWith_cons, ← hs, ih]

theorem splitOnChar_no_sep (sep : Char) (a : List Char)
    (h : ∀ c ∈ a, ¬ c = sep) : splitOnChar sep a = [a] := by
  induction a with
  | nil => rfl
  | cons c rest ih =>
    have hc : ¬ c = sep := h c (by simp)
    rw [splitOnChar_cons, if_neg hc, ih (fun c2 hc2 => h c2 (by simp [hc2]))]

theorem splitOnChar_append (sep : Char) (a b : List Char)
    (h : ∀ c ∈ a, ¬ c = sep) :
    splitOnChar sep (a ++ sep :: b) = a :: splitOnChar sep b := by
  induction a with
  | nil =>
    rw [List.nil_append, splitOnChar_cons, if_pos rfl]
  | cons c rest ih =>
    have hc : ¬ c = sep := h c (by simp)
    rw [List.cons_append, splitOnChar_cons, if_neg hc,
      ih (fun c2 hc2 => h c2 (by simp [hc2]))]

theorem isDigit_not_pyspace {c : Char} (h : c.isDigit = true) :
    isPySpace c = false := by
  have h1 : ¬ c = ' ' := isDigit_ne _ h (by decide)
  have h2 : ¬ c = '\x09' := isDigit_ne _ h (by decide)
  have h3 : ¬ c = '\x0a' := isDigit_ne _ h (by decide)
  have h4 : ¬ c = '\x0b' := isDigit_ne _ h (by decide)
  have h5 : ¬ c = '\x0c' := isDigit_ne _ h (by decide)
  have h6 : ¬ c = '\x0d' := isDigit_ne _ h (by decide)
  simp [isPySpace, h1, h2, h3, h4, h5, h6]

theorem pyspace_ne {c : Char} (x : Char) (h : isPySpace c = true)
    (hx : isPySpace x = false) : ¬ c = x := by
  intro hc
  subst hc
  rw [h] at hx
  exact Bool.noConfusion hx

theorem amPm1_ne {c : Char} (x : Char) (h : isAmPm1 c = true)
    (hx : isAmPm1 x = false) : ¬ c = x := by
  intro hc
  subst hc
  rw [h] at hx
  exact Bool.noConfusion hx

theorem amPm2_ne {c : Char} (x : Char) (h : isAmPm2 c = true)
    (hx : isAmPm2 x = false) : ¬ c = x := by
  intro hc
  subst hc
  rw [h] at hx
  exact Bool.noConfusion hx

theorem takeWhile_dropWhile_append (p : Char → Bool) (a : List Char) (d : Char)
    (b : List Char) (ha : ∀ c ∈ a, p c = true) (hd : p d = false) :
    (a ++ d :: b).takeWhile p = a ∧ (a ++ d :: b).dropWhile p = d :: b := by
  induction a with
  | nil => simp [List.takeWhile_cons, List.dropWhile_cons, hd]
  | cons c rest ih =>
    have hc : p c = true := ha c (by simp)
    obtain ⟨h1, h2⟩ := ih (fun c2 hc2 => ha c2 (by simp [hc2]))
    simp [List.takeWhile_cons, List.dropWhile_cons, hc, h1, h2]

/-- A valid proleptic-Gregorian calendar date, as `datetime(y, m, d)`
enforces (with the year capped at four digits by the `%Y` pattern). -/
def calendarDateOk (d m y : Nat) : Prop :=
  1 ≤ y ∧ 1 ≤ m ∧ m ≤ 12 ∧ 1 ≤ d ∧ d ≤ daysInMonth y m

/-- The claim's literal reading of "parses as `DD-MM-YYYY` with a valid
calendar date": exactly two day digits, two month digits, four year
digits, dash-separated, naming a valid calendar date. -/
def strictDateSpec (cs : List Char) : Prop :=
  ∃ d m y : List Char,
    cs = d ++ '-' :: (m ++ '-' :: y) ∧
    (∀ c ∈ d, c.isDigit = true) ∧ (∀ c ∈ m, c.isDigit = true) ∧
    (∀ c ∈ y, c.isDigit = true) ∧
    d.length = 2 ∧ m.length = 2 ∧ y.length = 4 ∧
    calendarDateOk (digitsToNat d) (digitsToNat m) (digitsToNat y)

/-- What `strptime("%d-%m-%Y")` actually accepts: day and month may be
one or two digits, the year exactly four, and the triple must be a valid
calendar date. -/
def amendedDateSpec (cs : List Char) : Prop :=
  ∃ d m y : List Char,
    cs = d ++ '-' :: (m ++ '-' :: y) ∧
    (∀ c ∈ d, c.isDigit = true) ∧ (∀ c ∈ m, c.isDigit = true) ∧
    (∀ c ∈ y, c.isDigit = true) ∧
    (d.length = 1 ∨ d.length = 2) ∧ (m.length = 1 ∨ m.length = 2) ∧
    y.length = 4 ∧
    calendarDateOk (digitsToNat d) (digitsToNat m) (digitsToNat y)

theorem daysInMonth_le31 (y m : Nat) : daysInMonth y m ≤ 31 := by
  unfold daysInMonth
  split_ifs <;> omega

theorem acceptsDateChars_iff (cs : List Char) :
    acceptsDateChars cs = true ↔ amendedDateSpec cs := by
  constructor
  · intro h
    cases hsp : splitOnChar '-' cs with
    | nil => exact absurd hsp (splitOnChar_ne_nil _ _)
    | cons p ps =>
      cases ps with
      | nil =>
        rw [acceptsDateChars.eq_def, hsp] at h
        exact absurd h (by simp)
      | cons q qs =>
        cases qs with
        | nil =>
          rw [acceptsDateChars.eq_def, hsp] at h
          exact absurd h (by simp)
        | cons r rs =>
          cases rs with
          | cons w ws =>
            rw [acceptsDateChars.eq_def, hsp] at h
            exact absurd h (by simp)
          | nil =>
            rw [acceptsDateChars.eq_def, hsp] at h
            simp only [dayOk, monthOk, yearOk, Bool.and_eq_true, List.all_eq_true,
              Bool.or_eq_true, beq_iff_eq, decide_eq_true_eq] at h
            obtain ⟨⟨hd, hdl, hd1, hd31⟩, ⟨hm, hml, hm1, hm12⟩, ⟨hy, hyl⟩, hy1, hcal⟩ := h
            have hcs : cs = p ++ '-' :: (q ++ '-' :: r) := by
              have hj := joinWith_splitOnChar '-' cs
              rw [hsp] at hj
              simpa [joinWith] using hj.symm
            exact ⟨p, q, r, hcs, hd, hm, hy, hdl, hml, hyl, hy1, hm1, hm12, hd1, hcal⟩
  · rintro ⟨d, m, y, rfl, hd, hm, hy, hdl, hml, hyl, hc1, hc2, hc3, hc4, hc5⟩
    have hdd : ∀ c ∈ d, ¬ c = '-' := fun c hc => isDigit_ne _ (hd c hc) (by decide)
    have hmd : ∀ c ∈ m, ¬ c = '-' := fun c hc => isDigit_ne _ (hm c hc) (by decide)
    have hyd : ∀ c ∈ y, ¬ c = '-' := fun c hc => isDigit_ne _ (hy c hc) (by decide)
    have hsp : splitOnChar '-' (d ++ '-' :: (m ++ '-' :: y)) = [d, m, y] := by
      rw [splitOnChar_append _ _ _ hdd, splitOnChar_append _ _ _ hmd,
        splitOnChar_no_sep _ _ hyd]
    rw [acceptsDateChars.eq_def, hsp]
    simp only [dayOk, monthOk, yearOk, Bool.and_eq_true, List.all_eq_true,
      Bool.or_eq_true, beq_iff_eq, decide_eq_true_eq]
    exact ⟨⟨hd, hdl, hc4, le_trans hc5 (daysInMonth_le31 _ _)⟩,
      ⟨hm, hml, hc2, hc3⟩, ⟨hy, hyl⟩, hc1, hc5⟩

/-- What `strptime("%I:%M %p")` actually accepts: hour 1-12 with one or
two digits, a colon, minutes with one digit (any) or two digits (at most
59), one or more whitespace characters, then AM/PM case-insensitively. -/
def amendedTimeSpec (cs : List Char) : Prop :=
  ∃ (h mnt sp : List Char) (a1 a2 : Char),
    cs = h ++ ':' :: (mnt ++ (sp ++ [a1, a2])) ∧
    (∀ c ∈ h, c.isDigit = true) ∧ (h.length = 1 ∨ h.length = 2) ∧
    1 ≤ digitsToNat h ∧ digitsToNat h ≤ 12 ∧
    (∀ c ∈ mnt, c.isDigit = true) ∧
    (mnt.length = 1 ∨ (mnt.length = 2 ∧ digitsToNat mnt ≤ 59)) ∧
    sp ≠ [] ∧ (∀ c ∈ sp, isPySpace c = true) ∧
    isAmPm1 a1 = true ∧ isAmPm2 a2 = true

/-- The claim's literal reading of "parses as 12-hour `H:MM AM/PM`":
hour 1-12 without padding requirement, exactly two minute digits (at most
59), a single space, uppercase AM or PM. -/
def strictTimeSpec (cs : List Char) : Prop :=
  ∃ (h mnt : List Char) (a1 : Char),
    cs = h ++ ':' :: (mnt ++ (' ' :: [a1, 'M'])) ∧
    (∀ c ∈ h, c.isDigit = true) ∧ (h.length = 1 ∨ h.length = 2) ∧
    1 ≤ digitsToNat h ∧ digitsToNat h ≤ 12 ∧
    (∀ c ∈ mnt, c.isDigit = true) ∧ mnt.length = 2 ∧ digitsToNat mnt ≤ 59 ∧
    (a1 = 'A' ∨ a1 = 'P')

theorem acceptsTimeChars_iff (cs : List Char) :
    acceptsTimeChars cs = true ↔ amendedTimeSpec cs := by
  constructor
  · intro hacc
    cases hsp : splitOnChar ':' cs with
    | nil => exact absurd hsp (splitOnChar_ne_nil _ _)
    | cons p ps =>
      cases ps with
      | nil =>
        rw [acceptsTimeChars.eq_def, hsp] at hacc
        exact absurd hacc (by simp)
      | cons q qs =>
        cases qs with
        | cons r rs =>
          rw [acceptsTimeChars.eq_def, hsp] at hacc
          exact absurd hacc (by simp)
        | nil =>
          rw [acceptsTimeChars.eq_def, hsp] at hacc
          simp only [Bool.and_eq_true] at hacc
          obtain ⟨hhour, hrest⟩ := hacc
          cases hrev : q.reverse with
          | nil =>
            rw [restOk.eq_def, hrev] at hrest
            exact absurd hrest (by simp)
          | cons m2 l2 =>
            cases l2 with
            | nil =>
              rw [restOk.eq_def, hrev] at hrest
              exact absurd hrest (by simp)
            | cons m1 midrev =>
              rw [restOk.eq_def, hrev] at hrest
              simp only [Bool.and_eq_true, Bool.not_eq_true'] at hrest
              obtain ⟨ha1, ha2, hne, hmin⟩ := hrest
              have hq : q = midrev.reverse ++ [m1, m2] := by
                have := congrArg List.reverse hrev
                simpa using this
              have hcs : cs = p ++ ':' :: q := by
                have hj := joinWith_splitOnChar ':' cs
                rw [hsp] at hj
                simpa [joinWith] using hj.symm
              refine ⟨p, (midrev.dropWhile isPySpace).reverse,
                (midrev.takeWhile isPySpace).reverse, m1, m2, ?_, ?_⟩
              · rw [hcs, hq]
                have hrw : midrev.reverse =
                    (midrev.dropWhile isPySpace).reverse ++
                      (midrev.takeWhile isPySpace).reverse := by
                  rw [← List.reverse_append, List.takeWhile_append_dropWhile]
                rw [hrw, List.append_assoc]
              · simp only [hourOk, Bool.and_eq_true, Bool.or_eq_true,
                  beq_iff_eq, decide_eq_true_eq, List.all_eq_true] at hhour
                obtain ⟨hhd, hhl, hh1, hh12⟩ := hhour
                simp only [minuteOk, Bool.and_eq_true, Bool.or_eq_true,
                  beq_iff_eq, decide_eq_true_eq, List.all_eq_true] at hmin
                refine ⟨hhd, hhl, hh1, hh12, hmin.1, hmin.2, ?_, ?_, ha1, ha2⟩
                · simp only [ne_eq, List.reverse_eq_nil_iff]
                  intro hc
                  rw [hc] at hne
                  exact absurd hne (by simp)
                · intro c hc
                  exact List.mem_takeWhile_imp (by simpa using hc)
  · rintro ⟨h, mnt, sp, a1, a2, rfl, hhd, hhl, hh1, hh12, hmd, hml, hspne, hsps,
      ha1, ha2⟩
    have hhc : ∀ c ∈ h, ¬ c = ':' := fun c hc => isDigit_ne _ (hhd c hc) (by decide)
    have hrc : ∀ c ∈ mnt ++ (sp ++ [a1, a2]), ¬ c = ':' := by
      intro c hc
      rcases List.mem_append.mp hc with hc | hc
      · exact isDigit_ne _ (hmd c hc) (by decide)
      · rcases List.mem_append.mp hc with hc | hc
        · exact pyspace_ne _ (hsps c hc) (by decide)
        · have hca : c = a1 ∨ c = a2 := by simpa using hc
          rcases hca with rfl | rfl
          · exact amPm1_ne _ ha1 (by decide)
          · exact amPm2_ne _ ha2 (by decide)
    have hsplit : splitOnChar ':' (h ++ ':' :: (mnt ++ (sp ++ [a1, a2]))) =
        [h, mnt ++ (sp ++ [a1, a2])] := by
      rw [splitOnChar_append _ _ _ hhc, splitOnChar_no_sep _ _ hrc]
    rw [acceptsTimeChars.eq_def, hsplit]
    simp only [Bool.and_eq_true]
    constructor
    · simp only [hourOk, Bool.and_eq_true, Bool.or_eq_true, beq_iff_eq,
        decide_eq_true_eq, List.all_eq_true]
      exact ⟨hhd, hhl, hh1, hh12⟩
    · have hrev2 : (mnt ++ (sp ++ [a1, a2])).reverse =
          a2 :: a1 :: (sp.reverse ++ mnt.reverse) := by
        simp [List.reverse_append]
      rw [restOk.eq_def, hrev2]
      have hmne : mnt ≠ [] := by
        rcases hml with h1 | h1
        · intro hc
          rw [hc] at h1
          exact absurd h1 (by simp)
        · intro hc
          rw [hc] at h1
          exact absurd h1.1 (by simp)
      cases hmr : mnt.reverse with
      | nil => exact absurd (List.reverse_eq_nil_iff.mp hmr) hmne
      | cons c0 l0 =>
        have hc0 : c0.isDigit = true := by
          have hmem : c0 ∈ mnt := by
            have hmem2 : c0 ∈ mnt.reverse := by
              rw [hmr]
              simp
            simpa using hmem2
          exact hmd c0 hmem
        obtain ⟨htake, hdrop⟩ := takeWhile_dropWhile_append isPySpace sp.reverse
          c0 l0 (fun c hc => hsps c (by simpa using hc)) (isDigit_not_pyspace hc0)
        simp only [ha1, ha2, htake, hdrop, Bool.and_eq_true, Bool.not_eq_true',
          Bool.true_and]
        constructor
        · simp [hspne]
        · rw [← hmr, List.reverse_reverse]
          simp only [minuteOk, Bool.and_eq_true, Bool.or_eq_true, beq_iff_eq,
            decide_eq_true_eq, List.all_eq_true]
          exact ⟨hmd, hml⟩

/-! ## Backend webhook clients (`call_n8n_webhook`)

The network is an oracle `NetOutcome` describing what the HTTP POST of
this call would do: fail in transport, or come back with a status code
and a parsed JSON body.  Exception message texts produced by libraries
are carried inside the oracle and the exception value; the model never
invents them. -/

inductive NetOutcome where
  | transportError (msg : String)
  | httpReply (status : Nat) (statusText : String) (body : JValue)

/-- The Python exceptions the translated fragments can raise.  CPython's
own message wording for `TypeError`/`AttributeError` is abstracted to a
fixed tag; no theorem depends on that text. -/
inductive PyExn where
  | requestError (msg : String)
  | httpStatusError (msg : String)
  | typeError
  | attributeError

/-- `str(e)`. -/
def pyStr : PyExn → String
  | .requestError m => m
  | .httpStatusError m => m
  | .typeError => "TypeError"
  | .attributeError => "AttributeError"

/-- main.py lines 60-66 (and fc.py lines 85-90): POST the payload, call
`raise_for_status`, return the parsed body.  There is no URL guard and no
`try`/`except`: a transport failure raises `httpx.RequestError`
(`requests.RequestException` in fc.py) to the caller, and a status of 400
or above raises `HTTPStatusError` to the caller. -/
def main_call_n8n_webhook (net : NetOutcome) : Except PyExn JValue :=
  match net with
  | .transportError msg => .error (.requestError msg)
  | .httpReply status statusText body =>
      if 400 ≤ status then .error (.httpStatusError statusText) else .ok body

/-- config.py lines 95-108: `if not N8N_WEBHOOK_URL` (unset or empty)
short-circuits with a configuration-error object before touching the
network; otherwise the POST runs inside `try`, `httpx.RequestError` is
caught and converted to an error object, and `raise_for_status` failures
(`httpx.HTTPStatusError`, not a subclass of `RequestError`) still
propagate.  The first component records whether a network call was
attempted. -/
def config_call_n8n_webhook (url : Option String) (net : NetOutcome) :
    Bool × Except PyExn JValue :=
  if url.getD "" = "" then
    (false, .ok (.obj [("error", .str "Webhook URL is not configured.")]))
  else
    match net with
    | .transportError msg =>
        (true, .ok (.obj [("error",
          .str ("Failed to connect to webhook service: " ++ msg))]))
    | .httpReply status statusText body =>
        if 400 ≤ status then (true, .error (.httpStatusError statusText))
        else (true, .ok body)

/-! ## The gateways' tool-call handling

main.py lines 220-268 (`gemini_to_client`) and fc.py lines 176-234
(`handle_websocket`).  A tool call is `(id, name, args)`; each processed
call appends `FunctionResponse`s, mutates the draft `state`, and may POST
one payload to n8n. -/

structure FunctionCall where
  id : String
  name : String
  args : List (String × JValue)

structure FunctionResponse where
  id : String
  name : String
  response : JValue

inductive ValidationResult where
  | ok
  | valueError
  | typeError
deriving DecidableEq

/-- One `if state.get(k): datetime.strptime(state[k], fmt)` line: a
missing or falsy value is not validated at all; a truthy non-string makes
`strptime` raise `TypeError`; a truthy string raises `ValueError` unless
it matches the format. -/
def validateField (v : Option JValue) (fmt : String → Bool) : ValidationResult :=
  match v with
  | none => .ok
  | some jv =>
      if truthy jv then
        match jv with
        | .str s => if fmt s then .ok else .valueError
        | _ => .typeError
      else .ok

/-- main.py lines 229-232 / fc.py lines 190-195: validate `startDate`
then `startTime` in the already-updated state. -/
def stateDateTimeCheck (st : List (String × JValue)) : ValidationResult :=
  match validateField (lookupKey st "startDate") strptime_d_m_Y with
  | .ok => validateField (lookupKey st "startTime") strptime_I_M_p
  | r => r

/-- CPython's `ValueError` text from a failed `strptime` ("time data ...
does not match format ..."); the exact wording is abstracted and no
theorem depends on it. -/
def strptimeErrText : String := "time data does not match format"

/-- The n8n payload of main.py line 238: `{"session_id": ..., "state":
..., "headers": {"authorization": state.get("authorization_token",
"")}}`. -/
def mkPayload (sid : String) (st : List (String × JValue)) : JValue :=
  .obj [("session_id", .str sid), ("state", .obj st),
    ("headers", .obj [("authorization",
      (lookupKey st "authorization_token").getD (.str ""))])]

/-- main.py lines 240-243: `fare = n8n_response.get("fare"); if fare:
state["fare"] = fare`. -/
def fareStep (st fields : List (String × JValue)) : List (String × JValue) :=
  match lookupKey fields "fare" with
  | some fv => if truthy fv then setk st "fare" fv else st
  | none => st

/-- `dict.update` from a JSON array: CPython accepts a sequence of
key/value pairs, assigning element by element, and raises at the first
element that is not a two-element sequence — leaving the assignments made
so far in place, which is why the state is returned alongside the
optional exception.  Pairs whose key is a non-string hashable (a number,
a boolean, `None` — which CPython would accept) fall outside this
development's string-keyed dict embedding and are grouped with the
raising element shapes. -/
def updatePairs (st : List (String × JValue)) :
    List JValue → (List (String × JValue)) × Option PyExn
  | [] => (st, none)
  | .arr [.str k, v] :: rest => updatePairs (setk st k v) rest
  | _ :: _ => (st, some .typeError)

/-- main.py lines 244-245 / fc.py lines 213-214: `if "state" in
n8n_response: state.update(n8n_response["state"])`.  A dict value updates
per key; an array value updates as a sequence of key/value pairs (an
empty array updates nothing); a nonempty string raises `ValueError` (its
elements are length-1 characters) and numbers, booleans and `None` raise
`TypeError` — both land in the same `except Exception` handler, so one
constructor stands for them.  Returns the state (including assignments
made before a raise) and the exception, if one was raised. -/
def stateMergeStep (st fields : List (String × JValue)) :
    (List (String × JValue)) × Option PyExn :=
  match lookupKey fields "state" with
  | some (.obj s) => (dictUpdate st s, none)
  | some (.arr es) => updatePairs st es
  | some _ => (st, some .typeError)
  | none => (st, none)

/-- main.py line 258: `n8n_response.get("status") == "BOOKING_CONFIRMED"`. -/
def isBookingConfirmed (v : Option JValue) : Bool :=
  match v with
  | some (.str s) => s == "BOOKING_CONFIRMED"
  | _ => false

/-- An error-shaped response `FunctionResponse(id=fc.id, name=fc.name,
response={"error": msg})`. -/
def errResponse (fc : FunctionCall) (msg : String) : FunctionResponse :=
  ⟨fc.id, fc.name, .obj [("error", .str msg)]⟩

/-- One iteration of the main.py tool-call loop (lines 224-267) for a
single `FunctionCall`, with the network oracle for this call's webhook
POST.  Returns the responses appended for this call, the state after the
iteration, the payloads actually POSTed, and whether `booking_confirmed`
was set.  A `.get` on a non-dict reply raises `AttributeError`, which the
outer `except Exception` turns into an error response; an unrecognised
tool name matches no branch and falls through silently. -/
def processOneCall (sid : String) (st : List (String × JValue))
    (fc : FunctionCall) (net : NetOutcome) :
    List FunctionResponse × List (String × JValue) × List JValue × Bool :=
  if fc.name = "get_fare_details" then
    let st1 := dictUpdate st fc.args
    match stateDateTimeCheck st1 with
    | .valueError =>
        ([errResponse fc ("Invalid date/time format: " ++ strptimeErrText)],
          st1, [], false)
    | .typeError => ([errResponse fc (pyStr .typeError)], st1, [], false)
    | .ok =>
        let payload := mkPayload sid st1
        match main_call_n8n_webhook net with
        | .error e => ([errResponse fc (pyStr e)], st1, [payload], false)
        | .ok reply =>
            match reply with
            | .obj fields =>
                let st2 := fareStep st1 fields
                match stateMergeStep st2 fields with
                | (st3, some e) => ([errResponse fc (pyStr e)], st3, [payload], false)
                | (st3, none) => ([⟨fc.id, fc.name, reply⟩], st3, [payload], false)
            | _ =>
                ([errResponse fc (pyStr .attributeError)], st1, [payload], false)
  else if fc.name = "book_ride" then
    let st1 := dictUpdate st fc.args
    let payload := mkPayload sid st1
    match main_call_n8n_webhook net with
    | .error e => ([errResponse fc (pyStr e)], st1, [payload], false)
    | .ok reply =>
        match reply with
        | .obj fields =>
            ([⟨fc.id, fc.name, reply⟩], st1, [payload],
              isBookingConfirmed (lookupKey fields "status"))
        | _ => ([errResponse fc (pyStr .attributeError)], st1, [payload], false)
  else ([], st, [], false)

/-- The whole `for fc in gemini_message.tool_call.function_calls:` loop,
one network oracle per call; responses and payloads accumulate in order
and the state threads through. -/
def processToolCalls (sid : String) (st : List (String × JValue)) :
    List (FunctionCall × NetOutcome) →
      List FunctionResponse × List (String × JValue) × List JValue × Bool
  | [] => ([], st, [], false)
  | (fc, net) :: rest =>
      let r1 := processOneCall sid st fc net
      let r2 := processToolCalls sid r1.2.1 rest
      (r1.1 ++ r2.1, r2.2.1, r1.2.2.1 ++ r2.2.2.1, r1.2.2.2 || r2.2.2.2)

/-- The tool names the main.py loop has a branch for. -/
def recognizedTool (n : String) : Bool :=
  n == "get_fare_details" || n == "book_ride"

/-- The fc.py n8n payload (lines 204-210): adds `message` and
`timestamp`, and takes `authorization` from the websocket message `data`
rather than from the state. -/
def fc_mkPayload (userInput sid tstamp : String) (auth : JValue)
    (st : List (String × JValue)) : JValue :=
  .obj [("message", .str userInput), ("session_id", .str sid),
    ("state", .obj st), ("timestamp", .str tstamp),
    ("headers", .obj [("authorization", auth)])]

/-- fc.py lines 213-214: `if "state" in n8n_response:
state.update(n8n_response["state"])` over every JSON shape the webhook
could return.  `in` on a dict tests keys, on a list tests element
equality, on a string tests substring, and raises `TypeError` on
numbers, booleans and `None`; when the test succeeds on a list or a
string, the subsequent `n8n_response["state"]` indexing raises
`TypeError`. -/
def fc_stateMergeStep (st : List (String × JValue)) :
    JValue → (List (String × JValue)) × Option PyExn
  | .obj fields => stateMergeStep st fields
  | .arr es =>
      if es.any (fun e => match e with | .str s => s == "state" | _ => false)
      then (st, some .typeError) else (st, none)
  | .str s =>
      if decide (List.IsInfix "state".data s.data) then (st, some .typeError)
      else (st, none)
  | _ => (st, some .typeError)

/-- One iteration of the fc.py tool loop (lines 182-232): the single
recognised tool is `process_ride_details`; same update-then-validate
pattern, error text `"Invalid state format: ..."`, no fare copy, and the
whole branch is wrapped in `except Exception`.  An unrecognised tool name
matches no branch and falls through silently. -/
def fc_processOneCall (userInput sid tstamp : String) (auth : JValue)
    (st : List (String × JValue)) (fc : FunctionCall) (net : NetOutcome) :
    List FunctionResponse × List (String × JValue) × List JValue :=
  if fc.name = "process_ride_details" then
    let st1 := dictUpdate st fc.args
    match stateDateTimeCheck st1 with
    | .valueError =>
        ([errResponse fc ("Invalid state format: " ++ strptimeErrText)], st1, [])
    | .typeError => ([errResponse fc (pyStr .typeError)], st1, [])
    | .ok =>
        let payload := fc_mkPayload userInput sid tstamp auth st1
        match main_call_n8n_webhook net with
        | .error e => ([errResponse fc (pyStr e)], st1, [payload])
        | .ok reply =>
            match fc_stateMergeStep st1 reply with
            | (st2, some e) => ([errResponse fc (pyStr e)], st2, [payload])
            | (st2, none) => ([⟨fc.id, fc.name, reply⟩], st2, [payload])
  else ([], st, [])

/-- The tool name the fc.py loop has a branch for. -/
def fc_recognizedTool (n : String) : Bool := n == "process_ride_details"

/-- The whole fc.py `for fc in gemini_message.tool_call.function_calls:`
loop (lines 182-232), one network oracle per call; responses and payloads
accumulate in order and the state threads through.  fc.py stamps each
payload with `datetime.now(uae_tz).isoformat()`; the timestamp oracle is
one parameter here, which only the payload contents see. -/
def fc_processToolCalls (userInput sid tstamp : String) (auth : JValue)
    (st : List (String × JValue)) :
    List (FunctionCall × NetOutcome) →
      List FunctionResponse × List (String × JValue) × List JValue
  | [] => ([], st, [])
  | (fc, net) :: rest =>
      let r1 := fc_processOneCall userInput sid tstamp auth st fc net
      let r2 := fc_processToolCalls userInput sid tstamp auth r1.2.1 rest
      (r1.1 ++ r2.1, r2.2.1, r1.2.2 ++ r2.2.2)

/-! ## wa.py session thread store

sqlite rows keyed by `wa_id`; `store_thread` is the upsert of lines
185-203, with history serialised through `json.dumps` and the timestamp
in seconds. -/

structure ThreadRow where
  historyJson : String
  currentState : Option String
  timestamp : Nat

abbrev ThreadDB := List (String × ThreadRow)

/-- wa.py `store_thread` (lines 185-203): upsert
`(wa_id, json.dumps(history), current_state, now)`. -/
def store_thread (db : ThreadDB) (waId : String) (history : List JValue)
    (currentState : Option String) (now : Nat) : ThreadDB :=
  setk db waId ⟨dumps (.arr history), currentState, now⟩

/-- wa.py `delete_thread_history` (lines 234-240):
`DELETE FROM threads WHERE wa_id = ?`. -/
def delete_thread_history (db : ThreadDB) (waId : String) : ThreadDB :=
  deleteKey db waId

/-- wa.py `check_if_thread_exists` (lines 207-232): returns
`(history, current_state)` together with the database after the read's
side effect.  A row strictly older than 5 minutes (300 s) is deleted and
reported absent `(None, None)`; otherwise the stored history JSON is
parsed back with `json.loads`. -/
def check_if_thread_exists (db : ThreadDB) (waId : String) (now : Nat) :
    (Option JValue × Option String) × ThreadDB :=
  match lookupKey db waId with
  | some row =>
      if 300 < now - row.timestamp then
        ((none, none), delete_thread_history db waId)
      else ((loads row.historyJson, row.currentState), db)
  | none => ((none, none), db)

/-! ## wa.py generate_response -/

/-- The fields of the model reply object that lines 298-320 read:
`response.text` (`None` or a string, possibly empty), the
`tool_invocation` attribute's `name` (`none` when the attribute is
absent, so `getattr`'s dummy fallback is used), and `function_call`
(`none` when absent or falsy). -/
structure ChatResponse where
  text : Option String
  toolInvocationName : Option String
  functionCallName : Option String

/-- `f"<Invoked {getattr(response, 'tool_invocation', dummy).name}>"`:
the fallback dummy's `name` is `"unknown"`. -/
def invokedPlaceholder (resp : ChatResponse) : String :=
  "<Invoked " ++ resp.toolInvocationName.getD "unknown" ++ ">"

/-- A `{"role": "model", "parts": [{"text": t}]}` history entry. -/
def modelEntry (t : String) : JValue :=
  .obj [("role", .str "model"), ("parts", .arr [.obj [("text", .str t)]])]

/-- wa.py `generate_response`, lines 298-320: the tail of the function
after the greeting shortcut, the thread fetch, the user-message append
and the keyword-based state override.  `currentState` is the state value
at line 298 and `history` already ends with the user message.  Returns
the function's return value, the history as it stands afterwards, and
whether `store_thread` ran: when `current_state` is not `None` the whole
block is skipped, nothing is stored and the function falls off the end
returning `None`; otherwise `text_response` (the text, or the
invoked-tool placeholder when the text is `None` or empty) goes into the
stored history while the raw `response.text` is returned. -/
def generateResponseTail (currentState : Option String) (history : List JValue)
    (resp : ChatResponse) : Option String × List JValue × Bool :=
  match currentState with
  | some _ => (none, history, false)
  | none =>
      let textResponse :=
        match resp.text with
        | some s => if s = "" then invokedPlaceholder resp else s
        | none => invokedPlaceholder resp
      let h1 := history ++ [modelEntry textResponse]
      let h2 :=
        match resp.functionCallName with
        | some fn => h1 ++ [modelEntry ("<Called " ++ fn ++ ">")]
        | none => h1
      (resp.text, h2, true)

/-! ## main.py HealthCheckHandler -/

/-- `do_GET` (main.py lines 337-344): `200 "OK"` when the path is
exactly `/health`, `send_error(404)` for every other path. -/
def healthDoGet (path : String) : Nat × Option String :=
  if path = "/health" then (200, some "OK") else (404, none)

/-- `do_HEAD` (main.py lines 333-335): 200 with an empty body, for every
path. -/
def healthDoHead (_ : String) : Nat × Option String := (200, none)

theorem processOneCall_idName (sid : String) (st : List (String × JValue))
    (fc : FunctionCall) (net : NetOutcome) :
    (processOneCall sid st fc net).1.map (fun r => (r.id, r.name)) =
      if recognizedTool fc.name then [(fc.id, fc.name)] else [] := by
  by_cases h1 : fc.name = "get_fare_details"
  · have hr : recognizedTool fc.name = true := by
      simp [recognizedTool, h1]
    simp only [processOneCall, if_pos h1, hr, if_true]
    cases stateDateTimeCheck (dictUpdate st fc.args) with
    | valueError => simp [errResponse]
    | typeError => simp [errResponse]
    | ok =>
      cases main_call_n8n_webhook net with
      | error e => simp [errResponse]
      | ok reply =>
        cases reply with
        | obj fields =>
          rcases hm : stateMergeStep (fareStep (dictUpdate st fc.args) fields)
              fields with ⟨st3, _ | e⟩ <;>
            simp [hm, errResponse]
        | null => simp [errResponse]
        | boolV b => simp [errResponse]
        | num n => simp [errResponse]
        | str s => simp [errResponse]
        | arr es => simp [errResponse]
  · by_cases h2 : fc.name = "book_ride"
    · have hr : recognizedTool fc.name = true := by
        simp [recognizedTool, h2]
      simp only [processOneCall, if_neg h1, if_pos h2, hr, if_true]
      cases main_call_n8n_webhook net with
      | error e => simp [errResponse]
      | ok reply =>
        cases reply with
        | obj fields => simp
        | null => simp [errResponse]
        | boolV b => simp [errResponse]
        | num n => simp [errResponse]
        | str s => simp [errResponse]
        | arr es => simp [errResponse]
    · have hr : recognizedTool fc.name = false := by
        simp [recognizedTool, h1, h2]
      simp [processOneCall, if_neg h1, if_neg h2, hr]

theorem fc_processOneCall_idName (uin sid ts : String) (auth : JValue)
    (st : List (String × JValue)) (fc : FunctionCall) (net : NetOutcome) :
    (fc_processOneCall uin sid ts auth st fc net).1.map
        (fun r => (r.id, r.name)) =
      if fc_recognizedTool fc.name then [(fc.id, fc.name)] else [] := by
  by_cases h1 : fc.name = "process_ride_details"
  · have hr : fc_recognizedTool fc.name = true := by
      simp [fc_recognizedTool, h1]
    simp only [fc_processOneCall, if_pos h1, hr, if_true]
    cases stateDateTimeCheck (dictUpdate st fc.args) with
    | valueError => simp [errResponse]
    | typeError => simp [errResponse]
    | ok =>
      cases main_call_n8n_webhook net with
      | error e => simp [errResponse]
      | ok reply =>
        rcases hm : fc_stateMergeStep (dictUpdate st fc.args) reply with
            ⟨st2, _ | e⟩ <;>
          simp [hm, errResponse]
  · have hr : fc_recognizedTool fc.name = false := by
      simp [fc_recognizedTool, h1]
    simp [fc_processOneCall, if_neg h1, hr]

/-- C4 (amended): in both gateways' tool loops, the batch of
`FunctionResponse`s sent back for a model event matches, id for id and
name for name and in order, exactly the invocations whose tool name is
recognised (`get_fare_details` or `book_ride` in main.py,
`process_ride_details` in fc.py) — each recognised invocation yields
exactly one response, whether it succeeds or raises, but an invocation
with an unrecognised tool name matches no branch and produces no
response at all. -/
theorem tool_responses_match_recognized_calls (sid uin ts : String)
    (auth : JValue) (st stf : List (String × JValue))
    (calls : List (FunctionCall × NetOutcome)) :
    (processToolCalls sid st calls).1.map (fun r => (r.id, r.name)) =
      (calls.filter (fun c => recognizedTool c.1.name)).map
        (fun c => (c.1.id, c.1.name))
    ∧ (fc_processToolCalls uin sid ts auth stf calls).1.map
        (fun r => (r.id, r.name)) =
      (calls.filter (fun c => fc_recognizedTool c.1.name)).map
        (fun c => (c.1.id, c.1.name)) := by
  constructor
  · induction calls generalizing st with
    | nil => rfl
    | cons c rest ih =>
      obtain ⟨fc, net⟩ := c
      simp only [processToolCalls, List.map_append, processOneCall_idName,
        List.filter_cons]
      by_cases h : recognizedTool fc.name
      · simp [h, ih]
      · simp only [Bool.not_eq_true] at h
        simp [h, ih]
  · induction calls generalizing stf with
    | nil => rfl
    | cons c rest ih =>
      obtain ⟨fc, net⟩ := c
      simp only [fc_processToolCalls, List.map_append, fc_processOneCall_idName,
        List.filter_cons]
      by_cases h : fc_recognizedTool fc.name
      · simp [h, ih]
      · simp only [Bool.not_eq_true] at h
        simp [h, ih]

/-- C4 (counterexample): an invocation whose tool name is not recognised
produces no response at all, in either gateway's loop — the batch for
this event is empty, so the claim's "exactly one response per
invocation, including unrecognised names" fails. -/
theorem unrecognized_tool_no_response :
    (processToolCalls "s1" []
        [(⟨"call-1", "cancel_ride", []⟩, NetOutcome.transportError "down")]).1
      = []
    ∧ (fc_processToolCalls "hi" "s1" "t" (JValue.str "") []
        [(⟨"call-1", "cancel_ride", []⟩, NetOutcome.transportError "down")]).1
      = [] := ⟨rfl, rfl⟩

/-- C5: in both gateways, when the updated state's `startDate`/`startTime`
fails the strptime format validation (`ValueError`), the tool invocation
gets exactly one error-shaped response, the webhook is not called (the
list of POSTed payloads is empty), and processing of that call stops
there. -/
theorem invalid_datetime_skips_webhook (sid uin ts : String) (auth : JValue)
    (st : List (String × JValue)) (cid : String)
    (args : List (String × JValue)) (net : NetOutcome)
    (h : stateDateTimeCheck (dictUpdate st args) = .valueError) :
    processOneCall sid st ⟨cid, "get_fare_details", args⟩ net =
      ([⟨cid, "get_fare_details", .obj [("error",
          .str ("Invalid date/time format: " ++ strptimeErrText))]⟩],
        dictUpdate st args, [], false)
    ∧ fc_processOneCall uin sid ts auth st ⟨cid, "process_ride_details", args⟩ net =
      ([⟨cid, "process_ride_details", .obj [("error",
          .str ("Invalid state format: " ++ strptimeErrText))]⟩],
        dictUpdate st args, []) := by
  constructor
  · simp [processOneCall, h, errResponse]
  · simp [fc_processOneCall, h, errResponse]

/-- C5 witness: `"2025-05-24"` (ISO order) as `startDate` trips the
validator in both gateways. -/
theorem invalid_datetime_skips_webhook_witness :
    processOneCall "s" [] ⟨"c1", "get_fare_details",
        [("startDate", JValue.str "2025-05-24")]⟩ (.transportError "down") =
      ([⟨"c1", "get_fare_details", .obj [("error",
          .str ("Invalid date/time format: " ++ strptimeErrText))]⟩],
        dictUpdate [] [("startDate", JValue.str "2025-05-24")], [], false)
    ∧ fc_processOneCall "hi" "s" "t" (.str "") [] ⟨"c1", "process_ride_details",
        [("startDate", JValue.str "2025-05-24")]⟩ (.transportError "down") =
      ([⟨"c1", "process_ride_details", .obj [("error",
          .str ("Invalid state format: " ++ strptimeErrText))]⟩],
        dictUpdate [] [("startDate", JValue.str "2025-05-24")], []) :=
  invalid_datetime_skips_webhook "s" "hi" "t" (.str "") [] "c1"
    [("startDate", JValue.str "2025-05-24")] (.transportError "down") (by rfl)

/-- C6: the gateway never fabricates a fare.  For a `get_fare_details`
call whose arguments do not name `fare` (the declared tool schema has no
such parameter) and whose webhook reply — when one arrives as a JSON
object — carries neither a `fare` field nor a `state` field, the state's
`fare` entry after the iteration is exactly what it was before (absent if
it was absent), on every path: validation failure, webhook exception,
non-dict reply, or a normal reply. -/
theorem no_fare_fabrication (sid : String) (st : List (String × JValue))
    (cid : String) (args : List (String × JValue)) (net : NetOutcome)
    (hnd : (args.map Prod.fst).Nodup)
    (hnofare : lookupKey args "fare" = none)
    (hreply : ∀ status stext fields,
      net = .httpReply status stext (.obj fields) →
        lookupKey fields "fare" = none ∧ lookupKey fields "state" = none) :
    lookupKey (processOneCall sid st ⟨cid, "get_fare_details", args⟩ net).2.1
        "fare" =
      lookupKey st "fare" := by
  have hbase : lookupKey (dictUpdate st args) "fare" = lookupKey st "fare" := by
    rw [lookupKey_dictUpdate st args hnd "fare", hnofare]
  cases hv : stateDateTimeCheck (dictUpdate st args) with
  | valueError => simp [processOneCall, hv, hbase]
  | typeError => simp [processOneCall, hv, hbase]
  | ok =>
    cases net with
    | transportError msg => simp [processOneCall, hv, main_call_n8n_webhook, hbase]
    | httpReply status stext body =>
      by_cases hs : 400 ≤ status
      · simp [processOneCall, hv, main_call_n8n_webhook, hs, hbase]
      · cases body with
        | obj fields =>
          obtain ⟨hf, hst⟩ := hreply status stext fields rfl
          simp [processOneCall, hv, main_call_n8n_webhook, hs, fareStep, hf,
            stateMergeStep, hst, hbase]
        | null => simp [processOneCall, hv, main_call_n8n_webhook, hs, hbase]
        | boolV b => simp [processOneCall, hv, main_call_n8n_webhook, hs, hbase]
        | num n => simp [processOneCall, hv, main_call_n8n_webhook, hs, hbase]
        | str s => simp [processOneCall, hv, main_call_n8n_webhook, hs, hbase]
        | arr es => simp [processOneCall, hv, main_call_n8n_webhook, hs, hbase]

/-- C6 witness: a normal 200 reply with no `fare` and no `state` leaves
the absent `fare` absent. -/
theorem no_fare_fabrication_witness :
    lookupKey (processOneCall "s" [] ⟨"c1", "get_fare_details",
        [("startLocation", JValue.str "A")]⟩
        (.httpReply 200 "" (.obj [("reply", JValue.str "need more info")]))).2.1
        "fare" =
      lookupKey [] "fare" :=
  no_fare_fabrication "s" [] "c1" [("startLocation", JValue.str "A")]
    (.httpReply 200 "" (.obj [("reply", JValue.str "need more info")]))
    (by decide) rfl
    (by
      rintro status stext fields h
      injection h with h1 h2 h3
      injection h3 with h4
      rw [← h4]
      exact ⟨rfl, rfl⟩)

/-- C2: `state.update(params)` is latest-wins at the top level — every
key named in the argument map takes its argument value, and every key not
named keeps its previous value (absent keys stay absent).  The argument
map has pairwise-distinct keys, as every Python dict does. -/
theorem state_update_latest_wins (st ps : List (String × JValue))
    (hnd : (ps.map Prod.fst).Nodup) (k : String) :
    (∀ v, lookupKey ps k = some v → lookupKey (dictUpdate st ps) k = some v)
    ∧ (lookupKey ps k = none → lookupKey (dictUpdate st ps) k = lookupKey st k) := by
  constructor
  · intro v hv
    rw [lookupKey_dictUpdate st ps hnd k, hv]
  · intro hv
    rw [lookupKey_dictUpdate st ps hnd k, hv]

/-- C2 witness: the spec's own example — merging `{endLocation: "C"}`
into `{startLocation: "A", endLocation: "B"}` overwrites `endLocation`
and leaves `startLocation` unchanged. -/
theorem state_update_latest_wins_witness :
    lookupKey (dictUpdate
        [("startLocation", JValue.str "A"), ("endLocation", JValue.str "B")]
        [("endLocation", JValue.str "C")]) "endLocation" = some (JValue.str "C")
    ∧ lookupKey (dictUpdate
        [("startLocation", JValue.str "A"), ("endLocation", JValue.str "B")]
        [("endLocation", JValue.str "C")]) "startLocation" =
      lookupKey [("startLocation", JValue.str "A"),
        ("endLocation", JValue.str "B")] "startLocation" :=
  ⟨(state_update_latest_wins _ _ (by decide) "endLocation").1
      (JValue.str "C") rfl,
    (state_update_latest_wins _ _ (by decide) "startLocation").2 rfl⟩

/-- C7: thread-store freshness.  A row written at time `t` and read 4
minutes later returns the stored history (deserialised back to the very
list that was stored) and state label, leaving the database unchanged; a
read 6 minutes after the write reports `(None, None)`, and the row is
deleted from the database by the read's side effect. -/
theorem thread_ttl (db : ThreadDB) (waId : String) (history : List JValue)
    (label : Option String) (t : Nat) :
    check_if_thread_exists (store_thread db waId history label t) waId (t + 240) =
      ((some (.arr history), label), store_thread db waId history label t)
    ∧ check_if_thread_exists (store_thread db waId history label t) waId (t + 360) =
      ((none, none),
        delete_thread_history (store_thread db waId history label t) waId)
    ∧ lookupKey (delete_thread_history (store_thread db waId history label t) waId)
        waId = (none : Option ThreadRow) := by
  have hlk : lookupKey (store_thread db waId history label t) waId =
      some ⟨dumps (.arr history), label, t⟩ := by
    simp [store_thread, lookupKey_setk]
  refine ⟨?_, ?_, lookupKey_deleteKey _ _⟩
  · have hfresh : ¬ 300 < (t + 240) - t := by omega
    simp [check_if_thread_exists, hlk, hfresh, loads_dumps]
  · have hstale : 300 < (t + 360) - t := by omega
    simp [check_if_thread_exists, hlk, hstale]

/-- C10: store/check round trip.  Any history list and state label
written with `store_thread` and read back with `check_if_thread_exists`
at most 5 minutes later come back exactly — the history list survives
`json.dumps` followed by `json.loads`. -/
theorem thread_roundtrip (db : ThreadDB) (waId : String) (history : List JValue)
    (label : Option String) (t dt : Nat) (h : dt ≤ 300) :
    (check_if_thread_exists (store_thread db waId history label t) waId
        (t + dt)).1 =
      (some (.arr history), label) := by
  have hlk : lookupKey (store_thread db waId history label t) waId =
      some ⟨dumps (.arr history), label, t⟩ := by
    simp [store_thread, lookupKey_setk]
  have hfresh : ¬ 300 < dt := by omega
  simp [check_if_thread_exists, hlk, hfresh, loads_dumps]

/-- C10 witness: a one-turn history and the `enquiry` label, read back
two minutes after the write. -/
theorem thread_roundtrip_witness :
    (check_if_thread_exists (store_thread [] "971544027717"
        [JValue.obj [("role", JValue.str "user"),
          ("parts", JValue.arr [JValue.str "hi"])]]
        (some "enquiry") 1000) "971544027717" (1000 + 120)).1 =
      (some (JValue.arr [JValue.obj [("role", JValue.str "user"),
        ("parts", JValue.arr [JValue.str "hi"])]]), some "enquiry") :=
  thread_roundtrip [] "971544027717"
    [JValue.obj [("role", JValue.str "user"),
      ("parts", JValue.arr [JValue.str "hi"])]]
    (some "enquiry") 1000 120 (by decide)

/-- C3 (amended): only config.py's `call_n8n_webhook` has the guard and
the handler.  With `N8N_WEBHOOK_URL` unset or empty it returns
`{"error": "Webhook URL is not configured."}` without attempting a
network call, and a transport failure (`httpx.RequestError`) is converted
into `{"error": "Failed to connect to webhook service: ..."}` instead of
raising. -/
theorem config_webhook_error_shapes (url : Option String) (net : NetOutcome) :
    (url.getD "" = "" →
      config_call_n8n_webhook url net =
        (false, .ok (.obj [("error", .str "Webhook URL is not configured.")])))
    ∧ (∀ msg, url.getD "" ≠ "" → net = .transportError msg →
        config_call_n8n_webhook url net =
          (true, .ok (.obj [("error",
            .str ("Failed to connect to webhook service: " ++ msg))]))) := by
  constructor
  · intro h
    simp [config_call_n8n_webhook, h]
  · intro msg h hnet
    subst hnet
    simp [config_call_n8n_webhook, h]

/-- C3 witness: the unset-URL and failed-transport shapes at concrete
inputs. -/
theorem config_webhook_error_shapes_witness :
    config_call_n8n_webhook none (.transportError "boom") =
      (false, .ok (.obj [("error", .str "Webhook URL is not configured.")]))
    ∧ config_call_n8n_webhook (some "http://n8n") (.transportError "boom") =
      (true, .ok (.obj [("error",
        .str ("Failed to connect to webhook service: " ++ "boom"))])) :=
  ⟨(config_webhook_error_shapes none (.transportError "boom")).1 rfl,
    (config_webhook_error_shapes (some "http://n8n") (.transportError "boom")).2
      "boom" (by decide) rfl⟩

/-- C3 (counterexample): main.py's `call_n8n_webhook` — the one the voice
gateway's tool loop actually calls — has neither the URL guard nor the
`try`/`except`, so a transport failure propagates to the caller as an
exception instead of an error-shaped object. -/
theorem main_webhook_raises :
    main_call_n8n_webhook (.transportError "connection refused") =
      .error (.requestError "connection refused") := rfl

/-- C8 (amended): when the conversational state is `None`, the adapter
returns the model's raw `response.text` unchanged — even when it is
`None` or empty — while the invoked-tool placeholder is substituted only
into the stored history entry; when the state is set, the block is
skipped entirely: nothing is stored and `None` is returned. -/
theorem generate_response_return (history : List JValue) (resp : ChatResponse)
    (h : resp.text = none ∨ resp.text = some "")
    (hfc : resp.functionCallName = none) :
    (generateResponseTail none history resp).1 = resp.text
    ∧ (generateResponseTail none history resp).2.1 =
        history ++ [modelEntry (invokedPlaceholder resp)]
    ∧ ∀ cs : String, generateResponseTail (some cs) history resp =
        (none, history, false) := by
  refine ⟨rfl, ?_, fun cs => rfl⟩
  rcases h with h | h <;> simp [generateResponseTail, h, hfc]

/-- C8 witness: a reply with no text and no tool attributes. -/
theorem generate_response_return_witness :
    (generateResponseTail none [] ⟨none, none, none⟩).1 =
      (⟨none, none, none⟩ : ChatResponse).text
    ∧ (generateResponseTail none [] ⟨none, none, none⟩).2.1 =
        [] ++ [modelEntry (invokedPlaceholder ⟨none, none, none⟩)]
    ∧ ∀ cs : String, generateResponseTail (some cs) [] ⟨none, none, none⟩ =
        (none, [], false) :=
  generate_response_return [] ⟨none, none, none⟩ (Or.inl rfl) rfl

/-- C8 (counterexample): with an empty text reply and an invoked tool,
the placeholder goes into the stored history entry, but the function
still returns the raw empty text — the placeholder is never the returned
result. -/
theorem placeholder_not_returned :
    (generateResponseTail none [] ⟨some "", some "get_fare_details", none⟩).1
        = some ""
    ∧ (generateResponseTail none [] ⟨some "", some "get_fare_details", none⟩).2.1
        = [modelEntry "<Invoked get_fare_details>"] := ⟨rfl, rfl⟩

/-- C9 (amended): `GET /health` answers 200 with body `"OK"`; a GET of
any other path — including the root `/` — answers 404; `HEAD` answers
200 with an empty body for every path. -/
theorem health_endpoints (p : String) :
    healthDoGet "/health" = (200, some "OK")
    ∧ (p ≠ "/health" → healthDoGet p = (404, none))
    ∧ healthDoHead p = (200, none) := by
  refine ⟨rfl, fun h => ?_, rfl⟩
  simp [healthDoGet, h]

/-- C9 witness: the three shapes at the root path. -/
theorem health_endpoints_witness :
    healthDoGet "/health" = (200, some "OK")
    ∧ healthDoGet "/" = (404, none)
    ∧ healthDoHead "/" = (200, none) :=
  ⟨(health_endpoints "/").1, (health_endpoints "/").2.1 (by decide),
    (health_endpoints "/").2.2⟩

/-- C9 (counterexample): a GET of the root path `/` is answered with 404
and no body, not with 200 `"OK"`. -/
theorem health_root_not_ok : healthDoGet "/" = (404, none) := rfl

/-- C1 (amended): the gateways' strptime-based validators accept exactly
the lenient CPython languages — `%d-%m-%Y` allows one- or two-digit day
and month (four-digit year, valid calendar date), and `%I:%M %p` allows a
one- or two-digit hour 1-12, one- or two-digit minutes, one or more
whitespace characters and a case-insensitive AM/PM; in particular the
claim's examples behave as stated. -/
theorem datetime_validation_characterization (s : String) :
    (strptime_d_m_Y s = true ↔ amendedDateSpec s.data)
    ∧ (strptime_I_M_p s = true ↔ amendedTimeSpec s.data)
    ∧ strptime_d_m_Y "24-05-2025" = true
    ∧ strptime_d_m_Y "2025-05-24" = false
    ∧ strptime_I_M_p "3:30 PM" = true
    ∧ strptime_I_M_p "15:30" = false :=
  ⟨acceptsDateChars_iff s.data, acceptsTimeChars_iff s.data, rfl, rfl, rfl, rfl⟩

/-- C1 (counterexample): the validators are strictly more lenient than
the claim's strict `DD-MM-YYYY` / `H:MM AM/PM` reading — the one-digit
day `"5-05-2025"` and the one-digit minute `"3:5 PM"` are both accepted
although neither satisfies the strict format. -/
theorem lenient_datetime_accepted :
    strptime_d_m_Y "5-05-2025" = true ∧ ¬ strictDateSpec ("5-05-2025".data)
    ∧ strptime_I_M_p "3:5 PM" = true ∧ ¬ strictTimeSpec ("3:5 PM".data) := by
  refine ⟨rfl, ?_, rfl, ?_⟩
  · rintro ⟨d, m, y, heq, hd, hm, hy, hdl, hml, hyl, hcal⟩
    have hdd : ∀ c ∈ d, ¬ c = '-' := fun c hc => isDigit_ne _ (hd c hc) (by decide)
    have hmd : ∀ c ∈ m, ¬ c = '-' := fun c hc => isDigit_ne _ (hm c hc) (by decide)
    have hyd : ∀ c ∈ y, ¬ c = '-' := fun c hc => isDigit_ne _ (hy c hc) (by decide)
    have hsp : splitOnChar '-' ("5-05-2025".data) = [d, m, y] := by
      rw [heq, splitOnChar_append _ _ _ hdd, splitOnChar_append _ _ _ hmd,
        splitOnChar_no_sep _ _ hyd]
    have hcon : splitOnChar '-' ("5-05-2025".data) =
        [['5'], ['0', '5'], ['2', '0', '2', '5']] := rfl
    rw [hcon] at hsp
    injection hsp with h1 h2
    rw [← h1] at hdl
    exact absurd hdl (by decide)
  · rintro ⟨hh, mnt, a1, heq, hhd, hhl, hh1, hh12, hmd, hml, hm59, ha⟩
    have hhne : ∀ c ∈ hh, ¬ c = ':' :=
      fun c hc => isDigit_ne _ (hhd c hc) (by decide)
    have hqne : ∀ c ∈ mnt ++ (' ' :: [a1, 'M']), ¬ c = ':' := by
      intro c hc
      rcases List.mem_append.mp hc with hc | hc
      · exact isDigit_ne _ (hmd c hc) (by decide)
      · have hcc : c = ' ' ∨ c = a1 ∨ c = 'M' := by simpa using hc
        rcases hcc with rfl | rfl | rfl
        · decide
        · rcases ha with rfl | rfl <;> decide
        · decide
    have hsp2 : splitOnChar ':' ("3:5 PM".data) =
        [hh, mnt ++ (' ' :: [a1, 'M'])] := by
      rw [heq, splitOnChar_append _ _ _ hhne, splitOnChar_no_sep _ _ hqne]
    have hcon2 : splitOnChar ':' ("3:5 PM".data) =
        [['3'], ['5', ' ', 'P', 'M']] := rfl
    rw [hcon2] at hsp2
    injection hsp2 with h1 h2
    injection h2 with h2 h3
    have h5 : List.take mnt.length (mnt ++ (' ' :: [a1, 'M'])) = mnt :=
      List.take_left _ _
    rw [hml, ← h2] at h5
    have hmnt : mnt = ['5', ' '] := by
      rw [← h5]
      rfl
    have hdig : (' ' : Char).isDigit = true := by
      refine hmd ' ' ?_
      rw [hmnt]
      decide
    exact absurd hdig (by decide)

end Tala
